import Mathlib

/-!
# Series discovery and frame extraction of the DICOM viewer

A shallow embedding of `loadDICOMSeries`, `extractFramesFromDICOM`, `abs` and
`getMetadataFromMap` from `src/dicom_viewer.go`, followed by the properties
established for them.

Modelling conventions.

* Everything the program obtains from outside its own source (the file system,
  the DICOM decoder, `path/filepath`, `strconv.ParseFloat`, the Unicode case
  table) is a field of `Env`; the program's own control flow is translated
  statement by statement.
* A Go `map[string]string` is `MetaMap`: `none` is the nil map, `some es` a
  non-nil map whose entries are `es`.  A Go `map[string][]string` is an
  association list with pairwise distinct keys; a key that is not bound reads as
  the empty slice, as in Go.  Go ranges over a map in an unspecified order; the
  model ranges in list order and every property below is order independent.
* A call ends with a value, with a non-nil error or in a run-time panic
  (`Outcome`).
* A `float64` is an IEEE 754 binary64 value (`F64`): products and differences
  are rounded to nearest, ties to even, one operation at a time, with overflow
  to an infinity, gradual underflow, signed zeros and NaN.
* Log output is not modelled.
-/

namespace DicomViewer

/-! ## Data model -/

/-- A decoded raster image. The pipeline never looks inside one. -/
structure Image where
  id : Nat
  deriving DecidableEq, Repr

/-- Go `map[string]string`; `none` is the nil map. -/
abbrev MetaMap := Option (List (String × String))

/-- Two-valued map read `val, ok := metadata[k]`; a nil map has no keys. -/
def mapGet (m : MetaMap) (k : String) : Option String :=
  match m with
  | none => none
  | some es => es.lookup k

/-- Assignment `metadata[k] = v` on a non-nil map. -/
def mapSet (es : List (String × String)) (k v : String) : List (String × String) :=
  es.filter (fun e => e.1 != k) ++ [(k, v)]

/-- Go `map[string][]string` (series identifier to image paths). -/
abbrev SeriesPaths := List (String × List String)

/-- Map read `seriesPaths[k]`; an unbound key reads as the empty slice. -/
def pathsOf (m : SeriesPaths) (k : String) : List String :=
  (m.lookup k).getD []

/-- The statement `seriesPaths[k] = append(seriesPaths[k], p)`. -/
def appendPath : SeriesPaths → String → String → SeriesPaths
  | [], k, p => [(k, [p])]
  | (k', ps) :: rest, k, p =>
    if k' = k then (k', ps ++ [p]) :: rest else (k', ps) :: appendPath rest k p

/-- How a call ends: it returns a value with a nil error, it returns a non-nil
error, or it panics. -/
inductive Outcome (α : Type) where
  | ok (value : α)
  | error
  | panic
  deriving DecidableEq, Repr

/-- The record `dicomSeries`. -/
structure DicomSeries where
  seriesPath : String
  frames : List Image
  metadata : MetaMap
  deriving DecidableEq, Repr

/-- One item of the directory record sequence of a DICOMDIR, seen through the
three tags the program reads: `none` is a tag that is not found, `some s` the
rendering returned by `Value.String()` (for the file id, the string list
returned by `GetValue()`). -/
structure DirRecord where
  directoryRecordType : Option String
  referencedFileID : Option (List String)
  seriesInstanceUID : Option String
  deriving DecidableEq, Repr

/-- The dynamic value that `GetValue()` returns for an element: a `[]string`,
the items of a sequence (held by the decoder as `[]*SequenceItemValue`), or a
value of another type (`[]int`, `[]float64`, `[]byte`, pixel data). -/
inductive ElemValue where
  | strings (values : List String)
  | sequenceItems (items : List DirRecord)
  | other
  deriving DecidableEq, Repr

/-- The two-valued type assertion `.([]string)`: `none` is `ok = false`. -/
def asStrings : ElemValue → Option (List String)
  | .strings values => some values
  | .sequenceItems _ => none
  | .other => none

/-- The single-valued type assertion `.([]dicom.Dataset)` of line 303: `none`
is a failed assertion, which panics. No value of the decoder has this dynamic
type; the items of a sequence are a `[]*SequenceItemValue`. -/
def asDatasets : ElemValue → Option (List DirRecord)
  | .strings _ => none
  | .sequenceItems _ => none
  | .other => none

/-- A parsed file, seen through the tags the program reads. `none` is a tag
that is not found.
* `patientName`, `studyDate`, `modality`, `seriesDescription`: the rendering
  returned by `Value.String()`;
* `rows`, `columns`: the rendering of the element value under `%d`;
* `imageOrientationPatient`, `directoryRecordSequence`: the dynamic value of
  the element;
* `pixelData`: the frames of the pixel data, each with the outcome of
  `GetImage()` (`none` is a decoding error). -/
structure Dataset where
  patientName : Option String
  studyDate : Option String
  modality : Option String
  rows : Option String
  columns : Option String
  imageOrientationPatient : Option ElemValue
  seriesDescription : Option String
  pixelData : Option (List (Option Image))
  directoryRecordSequence : Option ElemValue

/-- One call that `filepath.Walk` makes to the walk function: the path, the
name and directory flag of the file info, and whether an error is passed. -/
structure WalkEntry where
  path : String
  name : String
  isDir : Bool
  err : Bool
  deriving DecidableEq, Repr

/-! ## float64 -/

/-- A `float64`: NaN, an infinity, or the finite value `(-1)^neg * m * 2^e`.
A finite value of the program has `m < 2^53`, `-1074 ≤ e` and `m * 2^e < 2^1024`;
`m` is odd, or `m = 0` and `e = 0`, so that a value has one representation. -/
inductive F64 where
  | nan
  | inf (neg : Bool)
  | fin (neg : Bool) (m : Nat) (e : Int)
  deriving DecidableEq, Repr

namespace F64

/-- The number of binary digits of `n`, with `fuel` halvings allowed. -/
def bitLengthAux : Nat → Nat → Nat
  | 0, _ => 0
  | fuel + 1, n => if n = 0 then 0 else bitLengthAux fuel (n / 2) + 1

/-- The number of binary digits of `n`. -/
def bitLength (n : Nat) : Nat :=
  bitLengthAux n n

/-- Halving an even mantissa while raising the exponent, `fuel` times at most. -/
def canonAux : Nat → Nat → Int → Nat × Int
  | 0, m, e => (m, e)
  | fuel + 1, m, e => if m % 2 = 0 ∧ m ≠ 0 then canonAux fuel (m / 2) (e + 1) else (m, e)

/-- The representation of `(-1)^neg * m * 2^e` with an odd mantissa. -/
def canon (neg : Bool) (m : Nat) (e : Int) : F64 :=
  if m = 0 then fin neg 0 0 else fin neg (canonAux m m e).1 (canonAux m m e).2

/-- The exact value `(-1)^neg * M * 2^E` rounded to binary64, to nearest, ties
to even: the result keeps 53 binary digits, fewer below `2^-1022`, and is an
infinity from `2^1024` on. -/
def round (neg : Bool) (M : Nat) (E : Int) : F64 :=
  if M = 0 then fin neg 0 0
  else
    let ulp := max (E + bitLength M - 53) (-1074)
    if ulp ≤ E then
      if ulp > 971 then inf neg else canon neg (M * 2 ^ (E - ulp).toNat) ulp
    else
      let s := (ulp - E).toNat
      let q := M / 2 ^ s
      let r := M % 2 ^ s
      let half := 2 ^ (s - 1)
      let q := if r > half ∨ (r = half ∧ q % 2 = 1) then q + 1 else q
      if q = 2 ^ 53 then (if ulp + 1 > 971 then inf neg else canon neg (2 ^ 52) (ulp + 1))
      else if ulp > 971 then inf neg else canon neg q ulp

/-- The integer `(-1)^neg * m * 2^(e - e0)`, for `e0 ≤ e`. -/
def scaled (neg : Bool) (m : Nat) (e e0 : Int) : Int :=
  if neg then -((m * 2 ^ (e - e0).toNat : Nat) : Int) else ((m * 2 ^ (e - e0).toNat : Nat) : Int)

/-- The comparison `a < b`; false when an operand is NaN. -/
def lt : F64 → F64 → Bool
  | nan, _ => false
  | _, nan => false
  | inf n1, inf n2 => n1 && !n2
  | inf n1, fin _ _ _ => n1
  | fin _ _ _, inf n2 => !n2
  | fin n1 m1 e1, fin n2 m2 e2 =>
    decide (scaled n1 m1 e1 (min e1 e2) < scaled n2 m2 e2 (min e1 e2))

/-- The product `a * b`. -/
def mul : F64 → F64 → F64
  | nan, _ => nan
  | _, nan => nan
  | inf n1, inf n2 => inf (xor n1 n2)
  | inf n1, fin n2 m _ => if m = 0 then nan else inf (xor n1 n2)
  | fin n1 m _, inf n2 => if m = 0 then nan else inf (xor n1 n2)
  | fin n1 m1 e1, fin n2 m2 e2 => round (xor n1 n2) (m1 * m2) (e1 + e2)

/-- The difference `a - b`; an exact zero difference is `+0`, except that
`(-0) - (+0)` is `-0`. -/
def sub : F64 → F64 → F64
  | nan, _ => nan
  | _, nan => nan
  | inf n1, inf n2 => if n1 = n2 then nan else inf n1
  | inf n1, fin _ _ _ => inf n1
  | fin _ _ _, inf n2 => inf (!n2)
  | fin n1 m1 e1, fin n2 m2 e2 =>
    let d := scaled n1 m1 e1 (min e1 e2) - scaled n2 m2 e2 (min e1 e2)
    if d = 0 then fin (n1 && !n2 && m1 == 0) 0 0
    else round (decide (d < 0)) d.natAbs (min e1 e2)

/-- The negation `-a`. -/
def neg : F64 → F64
  | nan => nan
  | inf n => inf (!n)
  | fin n m e => fin (!n) m e

/-- The constant `0`, also the zero value of the type. -/
def zero : F64 :=
  fin false 0 0

/-- The constant `1`. -/
def one : F64 :=
  fin false 1 0

end F64

/-- What the program obtains from outside its own source.
* `stat p`: `os.Stat(p)` succeeds;
* `parseFile p`: `dicom.ParseFile(p, nil)`, `none` on error;
* `walk d`: the calls `filepath.Walk(d, fn)` makes, in order, for as long as
  `fn` returns nil;
* `join`, `base`, `dir`: `filepath.Join`, `filepath.Base`, `filepath.Dir`;
* `unicodeLower`: `unicode.ToLower` on runes outside ASCII;
* `parseFloat`: `strconv.ParseFloat(s, 64)`, `none` on error; the value may be
  an infinity or NaN, and a finite value comes in its one representation. -/
structure Env where
  stat : String → Bool
  parseFile : String → Option Dataset
  walk : String → List WalkEntry
  join : List String → String
  base : String → String
  dir : String → String
  unicodeLower : Char → Char
  parseFloat : String → Option F64

/-! ## Orientation (lines 432-473 and 510-515) -/

/-- The function `abs`. -/
def abs (x : F64) : F64 :=
  if F64.lt x F64.zero then F64.neg x else x

/-- Lines 437-442: `values[i]` is the parsed number, or stays zero when the
string does not parse. -/
def parseValues (parseFloat : String → Option F64) (orientationValues : List String) :
    List F64 :=
  orientationValues.map (fun v => match parseFloat v with
    | some f => f
    | none => F64.zero)

/-- Lines 448-465: the plane named by the dominant component of the cross
product of `values[0:3]` and `values[3:6]`. The caller guarantees six values. -/
def classifyPlane (values : List F64) : String :=
  let zX := F64.sub (F64.mul (values.getD 1 F64.zero) (values.getD 5 F64.zero))
    (F64.mul (values.getD 2 F64.zero) (values.getD 4 F64.zero))
  let zY := F64.sub (F64.mul (values.getD 2 F64.zero) (values.getD 3 F64.zero))
    (F64.mul (values.getD 0 F64.zero) (values.getD 5 F64.zero))
  let zZ := F64.sub (F64.mul (values.getD 0 F64.zero) (values.getD 4 F64.zero))
    (F64.mul (values.getD 1 F64.zero) (values.getD 3 F64.zero))
  let absX := abs zX
  let absY := abs zY
  let absZ := abs zZ
  if F64.lt absY absX && F64.lt absZ absX then "Sagittal"
  else if F64.lt absX absY && F64.lt absZ absY then "Coronal"
  else if F64.lt absX absZ && F64.lt absY absZ then "Axial"
  else "Unknown"

/-- Lines 432-473: the value stored under "Orientation". -/
def orientationOf (parseFloat : String → Option F64)
    (orientation : Option ElemValue) : String :=
  match orientation with
  | some value =>
    match asStrings value with
    | some orientationValues =>
      if orientationValues.length ≥ 6 then
        classifyPlane (parseValues parseFloat orientationValues)
      else "Unknown"
    | none => "Unknown"
  | none => "Unknown"

/-! ## Frame extraction (lines 404-508) -/

/-- The four error returns of `extractFramesFromDICOM`. -/
inductive ExtractError where
  | parseFailed
  | noPixelData
  | noFrames
  | noValidFrames
  deriving DecidableEq, Repr

/-- The result triple of `extractFramesFromDICOM`; `err = none` is a nil error. -/
structure ExtractResult where
  frames : List Image
  metadata : MetaMap
  err : Option ExtractError

/-- Lines 412-479: the metadata map built from a parsed file. -/
def extractMetadata (parseFloat : String → Option F64) (dataset : Dataset) :
    List (String × String) :=
  let metadata : List (String × String) := []
  let metadata := match dataset.patientName with
    | some s => mapSet metadata "PatientName" s
    | none => metadata
  let metadata := match dataset.studyDate with
    | some s => mapSet metadata "StudyDate" s
    | none => metadata
  let metadata := match dataset.modality with
    | some s => mapSet metadata "Modality" s
    | none => metadata
  let metadata := match dataset.rows, dataset.columns with
    | some r, some c => mapSet metadata "Dimensions" (r ++ " x " ++ c)
    | _, _ => metadata
  let metadata := mapSet metadata "Orientation"
    (orientationOf parseFloat dataset.imageOrientationPatient)
  let metadata := match dataset.seriesDescription with
    | some s => mapSet metadata "SeriesDescription" s
    | none => metadata
  metadata

/-- Lines 493-501: the frames that decode, in order; a frame that does not
decode is skipped. -/
def decodeFrames (frames : List (Option Image)) : List Image :=
  frames.foldl (fun acc frame => match frame with
    | some img => acc ++ [img]
    | none => acc) []

/-- The function `extractFramesFromDICOM`. -/
def extractFramesFromDICOM (env : Env) (filePath : String) : ExtractResult :=
  match env.parseFile filePath with
  | none => ⟨[], none, some .parseFailed⟩
  | some dataset =>
    let metadata := extractMetadata env.parseFloat dataset
    match dataset.pixelData with
    | none => ⟨[], some metadata, some .noPixelData⟩
    | some pixelFrames =>
      if pixelFrames.length = 0 then ⟨[], some metadata, some .noFrames⟩
      else
        let frames := decodeFrames pixelFrames
        if frames.length = 0 then ⟨[], some metadata, some .noValidFrames⟩
        else ⟨frames, some metadata, none⟩

/-! ## Series index (lines 286-361) -/

/-- The mapping `unicode.ToLower` applied to each rune by `strings.ToLower`:
ASCII letters are shifted, other ASCII runes are fixed, the rest goes through
the Unicode table. -/
def toLowerRune (unicodeLower : Char → Char) (c : Char) : Char :=
  if c.val < 128 then c.toLower else unicodeLower c

/-- The function `strings.ToLower`, on the runes of the string. -/
def toLower (unicodeLower : Char → Char) (s : String) : List Char :=
  s.toList.map (toLowerRune unicodeLower)

/-- The function `strings.HasSuffix`, on the runes of the string. -/
def hasSuffix (s : List Char) (suffix : String) : Bool :=
  suffix.toList.isSuffixOf s

/-- Lines 343-347: the test that makes a regular file a candidate. -/
def isCandidate (unicodeLower : Char → Char) (name : String) : Bool :=
  let lowerName := toLower unicodeLower name
  hasSuffix lowerName ".dcm" ||
    hasSuffix lowerName ".dicom" ||
    hasSuffix lowerName ".ima" ||
    !lowerName.contains '.'

/-- Lines 332-356: the walk function; `none` is a non-nil error return. -/
def walkFn (env : Env) (seriesPaths : SeriesPaths) (e : WalkEntry) : Option SeriesPaths :=
  if e.err then none
  else if e.isDir then some seriesPaths
  else if isCandidate env.unicodeLower e.name then
    let seriesDir := env.base (env.dir e.path)
    some (appendPath seriesPaths seriesDir e.path)
  else some seriesPaths

/-- The loop of `filepath.Walk`: the first non-nil return of the walk function
ends the walk and is returned. -/
def walkAll (env : Env) : SeriesPaths → List WalkEntry → Option SeriesPaths
  | seriesPaths, [] => some seriesPaths
  | seriesPaths, e :: es =>
    match walkFn env seriesPaths e with
    | none => none
    | some seriesPaths' => walkAll env seriesPaths' es

/-- Lines 306-321: the body of the loop over the directory records. -/
def recordStep (env : Env) (dirPath : String) (seriesPaths : SeriesPaths)
    (record : DirRecord) : SeriesPaths :=
  match record.directoryRecordType with
  | some recordType =>
    if recordType = "IMAGE" then
      match record.referencedFileID with
      | some filePathParts =>
        let filePath := env.join (dirPath :: filePathParts)
        match record.seriesInstanceUID with
        | some seriesUID => appendPath seriesPaths seriesUID filePath
        | none => seriesPaths
      | none => seriesPaths
    else seriesPaths
  | none => seriesPaths

/-- Lines 287-327: the mapping after the DICOMDIR has been looked for. The
assertion of line 303 panics when it fails. -/
def manifestIndex (env : Env) (dirPath : String) : Outcome SeriesPaths :=
  let dicomdirPath := env.join [dirPath, "DICOMDIR"]
  if env.stat dicomdirPath then
    match env.parseFile dicomdirPath with
    | none => .ok []
    | some dataset =>
      match dataset.directoryRecordSequence with
      | some records =>
        match asDatasets records with
        | some sequence => .ok (sequence.foldl (recordStep env dirPath) [])
        | none => .panic
      | none => .ok []
  else .ok []

/-- Lines 330-361: the directory traversal, started from an empty mapping; a
non-nil error of the walk is returned. -/
def traversalIndex (env : Env) (dirPath : String) : Outcome SeriesPaths :=
  match walkAll env [] (env.walk dirPath) with
  | some seriesPaths => .ok seriesPaths
  | none => .error

/-- Lines 286-361: the mapping from series identifier to image paths. -/
def seriesIndex (env : Env) (dirPath : String) : Outcome SeriesPaths :=
  match manifestIndex env dirPath with
  | .panic => .panic
  | .error => .error
  | .ok seriesPaths =>
    if seriesPaths.length = 0 then
      match walkAll env seriesPaths (env.walk dirPath) with
      | some seriesPaths' => .ok seriesPaths'
      | none => .error
    else .ok seriesPaths

/-! ## Series assembly (lines 368-402) -/

/-- Lines 374-386: one iteration of the loop over the image paths of a series. -/
def fileStep (env : Env) (acc : List Image × MetaMap) (imagePath : String) :
    List Image × MetaMap :=
  let r := extractFramesFromDICOM env imagePath
  match r.err with
  | some _ => acc
  | none => (acc.1 ++ r.frames, match acc.2 with
    | none => r.metadata
    | some m => some m)

/-- Lines 370-386: the frames and the metadata accumulated over a series. -/
def processSeries (env : Env) (imagePaths : List String) : List Image × MetaMap :=
  imagePaths.foldl (fileStep env) ([], none)

/-- Lines 369-398: one iteration of the loop over the series. -/
def seriesStep (env : Env) (seriesList : List DicomSeries) (entry : String × List String) :
    List DicomSeries :=
  let r := processSeries env entry.2
  if r.1.length > 0 then seriesList ++ [⟨entry.1, r.1, r.2⟩] else seriesList

/-- Lines 368-401: the series list built from the mapping. -/
def assembleSeries (env : Env) (seriesPaths : SeriesPaths) : List DicomSeries :=
  seriesPaths.foldl (seriesStep env) []

/-- The function `loadDICOMSeries`. -/
def loadDICOMSeries (env : Env) (dirPath : String) : Outcome (List DicomSeries) :=
  match seriesIndex env dirPath with
  | .panic => .panic
  | .error => .error
  | .ok seriesPaths => .ok (assembleSeries env seriesPaths)

/-! ## Metadata rendering (lines 517-538) -/

/-- The function `getMetadataFromMap`. -/
def getMetadataFromMap (metadata : MetaMap) : String :=
  let result := "--- DICOM Metadata ---\n"
  let result := match mapGet metadata "PatientName" with
    | some val => result ++ ("Patient Name: " ++ val ++ "\n")
    | none => result
  let result := match mapGet metadata "StudyDate" with
    | some val => result ++ ("Study Date: " ++ val ++ "\n")
    | none => result
  let result := match mapGet metadata "Modality" with
    | some val => result ++ ("Modality: " ++ val ++ "\n")
    | none => result
  let result := match mapGet metadata "Dimensions" with
    | some val => result ++ ("Image Dimensions: " ++ val ++ "\n")
    | none => result
  let result := match mapGet metadata "Orientation" with
    | some val => result ++ ("Orientation: " ++ val ++ "\n")
    | none => result
  let result := match mapGet metadata "SeriesDescription" with
    | some val => result ++ ("Series Description: " ++ val)
    | none => result
  result

/-! ## Specification-side notions -/

/-- Whether the value is finite. -/
def F64.isFinite : F64 → Bool
  | .fin _ _ _ => true
  | .inf _ => false
  | .nan => false

/-- The exact number a finite value stands for; `0` for an infinity and NaN. -/
def F64.toRat : F64 → ℚ
  | .fin neg m e => (if neg then -1 else 1) * (m : ℚ) * (2 : ℚ) ^ e
  | .inf _ => 0
  | .nan => 0

/-- The three components of the cross product as lines 448-450 compute them. -/
def computedCross (values : List F64) : F64 × F64 × F64 :=
  (F64.sub (F64.mul (values.getD 1 F64.zero) (values.getD 5 F64.zero))
    (F64.mul (values.getD 2 F64.zero) (values.getD 4 F64.zero)),
   F64.sub (F64.mul (values.getD 2 F64.zero) (values.getD 3 F64.zero))
    (F64.mul (values.getD 0 F64.zero) (values.getD 5 F64.zero)),
   F64.sub (F64.mul (values.getD 0 F64.zero) (values.getD 4 F64.zero))
    (F64.mul (values.getD 1 F64.zero) (values.getD 3 F64.zero)))

/-- The cross product of `v[0:3]` and `v[3:6]` over exact numbers, as the
specification writes it. -/
def crossProduct (v : List ℚ) : ℚ × ℚ × ℚ :=
  (v.getD 1 0 * v.getD 5 0 - v.getD 2 0 * v.getD 4 0,
   v.getD 2 0 * v.getD 3 0 - v.getD 0 0 * v.getD 5 0,
   v.getD 0 0 * v.getD 4 0 - v.getD 1 0 * v.getD 3 0)

/-- The plane the specification names for exact direction cosines: the axis
whose component of the exact cross product is strictly the largest in absolute
value, "Unknown" when there is none. -/
def exactPlane (v : List ℚ) : String :=
  if |(crossProduct v).1| > |(crossProduct v).2.1| ∧
      |(crossProduct v).1| > |(crossProduct v).2.2| then "Sagittal"
  else if |(crossProduct v).2.1| > |(crossProduct v).1| ∧
      |(crossProduct v).2.1| > |(crossProduct v).2.2| then "Coronal"
  else if |(crossProduct v).2.2| > |(crossProduct v).1| ∧
      |(crossProduct v).2.2| > |(crossProduct v).2.1| then "Axial"
  else "Unknown"

/-- The cross product is computed without error: the values and the three
computed components are finite, and each component is the exact one. -/
def crossExact (values : List F64) : Prop :=
  (∀ x ∈ values, x.isFinite = true) ∧
  (computedCross values).1.isFinite = true ∧
  (computedCross values).2.1.isFinite = true ∧
  (computedCross values).2.2.isFinite = true ∧
  (computedCross values).1.toRat = (crossProduct (values.map F64.toRat)).1 ∧
  (computedCross values).2.1.toRat = (crossProduct (values.map F64.toRat)).2.1 ∧
  (computedCross values).2.2.toRat = (crossProduct (values.map F64.toRat)).2.2

/-- The value is a zero, of either sign. -/
def F64.isZero : F64 → Bool
  | .fin _ m _ => m == 0
  | .inf _ => false
  | .nan => false

/-- A walk entry that the walk function adds to the mapping: a regular file
whose name passes the candidate test. -/
def accepted (env : Env) (e : WalkEntry) : Bool :=
  !e.isDir && isCandidate env.unicodeLower e.name

/-- The paths the walk adds under key `k`, in walk order. -/
def walkedPaths (env : Env) (es : List WalkEntry) (k : String) : List String :=
  (es.filter (fun e => accepted env e && (env.base (env.dir e.path) == k))).map WalkEntry.path

/-- The concatenation, in path order, of the frame sequences returned for the
files whose extraction succeeds. -/
def successFrames (env : Env) : List String → List Image
  | [] => []
  | p :: ps =>
    (if (extractFramesFromDICOM env p).err = none then (extractFramesFromDICOM env p).frames
      else []) ++ successFrames env ps

/-- The first path, in path order, whose extraction succeeds. -/
def firstSuccess (env : Env) (paths : List String) : Option String :=
  paths.find? (fun p => (extractFramesFromDICOM env p).err.isNone)

/-- The series emitted for one entry of the mapping, if any. -/
def emitSeries (env : Env) (entry : String × List String) : Option DicomSeries :=
  if (processSeries env entry.2).1.length > 0 then
    some ⟨entry.1, (processSeries env entry.2).1, (processSeries env entry.2).2⟩
  else none

/-- The name ends in `suffix` when compared case-insensitively: its last
runes, as many as the suffix has, lower-cased, are the suffix. -/
def endsWithIgnoringCase (unicodeLower : Char → Char) (name suffix : String) : Bool :=
  (name.toList.drop (name.toList.length - suffix.toList.length)).map
    (toLowerRune unicodeLower) == suffix.toList

/-- Each file path is listed under at most one series identifier. -/
def pathUnderOneSeries (idx : SeriesPaths) : Prop :=
  ∀ p k1 k2, p ∈ pathsOf idx k1 → p ∈ pathsOf idx k2 → k1 = k2

/-- The DICOMDIR of the directory exists and parses, and none of the items of
its directory record sequence, if it has one, passes the test of line 307 for
an image record. -/
def manifestWithoutImages (env : Env) (dirPath : String) : Bool :=
  env.stat (env.join [dirPath, "DICOMDIR"]) &&
    match env.parseFile (env.join [dirPath, "DICOMDIR"]) with
    | some dataset =>
      match dataset.directoryRecordSequence with
      | some (.sequenceItems items) =>
        items.all (fun r => r.directoryRecordType != some "IMAGE")
      | _ => true
    | none => false

/-- The same directory without its DICOMDIR file: the file cannot be found or
parsed, and the walk does not meet it. -/
def withoutManifest (env : Env) (dirPath : String) : Env :=
  { env with
    stat := fun p => if p = env.join [dirPath, "DICOMDIR"] then false else env.stat p,
    parseFile := fun p => if p = env.join [dirPath, "DICOMDIR"] then none else env.parseFile p,
    walk := fun d => (env.walk d).filter (fun e => e.path != env.join [dirPath, "DICOMDIR"]) }

/-- The lines of a text: every line feed ends a line, and text after the last
line feed is a further line when it is not empty. -/
def splitLines : List Char → List (List Char)
  | [] => []
  | c :: cs =>
    if c = '\n' then [] :: splitLines cs
    else match splitLines cs with
      | [] => [[c]]
      | l :: ls => (c :: l) :: ls

/-- The lines of a string. -/
def textLines (s : String) : List String :=
  (splitLines s.toList).map String.mk

/-- The fixed vocabulary in its fixed order, each field with its label. -/
def vocabulary : List (String × String) :=
  [("PatientName", "Patient Name: "), ("StudyDate", "Study Date: "),
   ("Modality", "Modality: "), ("Dimensions", "Image Dimensions: "),
   ("Orientation", "Orientation: "), ("SeriesDescription", "Series Description: ")]

/-- One line, label then value, for each vocabulary field present in the map,
in vocabulary order. -/
def fieldLines (m : MetaMap) : List String :=
  vocabulary.filterMap (fun f => (mapGet m f.1).map (fun v => f.2 ++ v))

/-- No value of the map contains a line feed. -/
def singleLineValues (m : MetaMap) : Bool :=
  match m with
  | none => true
  | some es => es.all (fun e => !e.2.toList.contains '\n')

/-- The characters a field contributes when its line is terminated. -/
def termLine (label : String) (o : Option String) : List Char :=
  match o with
  | some v => (label ++ v).toList ++ ['\n']
  | none => []

/-- The characters a field contributes when its line is not terminated. -/
def openLine (label : String) (o : Option String) : List Char :=
  match o with
  | some v => (label ++ v).toList
  | none => []

/-- The line a field contributes, if it is present. -/
def optLine (label : String) (o : Option String) : List (List Char) :=
  match o with
  | some v => [(label ++ v).toList]
  | none => []

/-- A parser that knows a few decimal strings; each value is the binary64
nearest to the decimal. -/
def sampleParseFloat (s : String) : Option F64 :=
  if s = "0" then some F64.zero
  else if s = "1" then some F64.one
  else if s = "2" then some (.fin false 1 1)
  else if s = "1e200" then some (.fin false 2941796710330669 613)
  else if s = "2e200" then some (.fin false 2941796710330669 614)
  else if s = "1e-200" then some (.fin false 1723641332219371 (-715))
  else none

/-! ## A sample environment -/

/-- Joining clean path elements with a slash. -/
def sampleJoin (parts : List String) : String :=
  "/".intercalate parts

/-- The directory part of a clean absolute path. -/
def sampleDir (p : String) : String :=
  String.mk ((p.toList.reverse.dropWhile (fun c => c != '/')).drop 1).reverse

/-- The last element of a clean absolute path. -/
def sampleBase (p : String) : String :=
  String.mk (p.toList.reverse.takeWhile (fun c => c != '/')).reverse

/-- An image file with the given modality and pixel-data frames; the decoder
renders a string value in brackets. -/
def sampleImageFile (modality : String) (frames : Option (List (Option Image))) : Dataset :=
  { patientName := some "[DOE^JANE]", studyDate := none, modality := some modality,
    rows := some "&\x7b[512]\x7d", columns := some "&\x7b[512]\x7d", imageOrientationPatient := none,
    seriesDescription := none, pixelData := frames, directoryRecordSequence := none }

/-- A DICOMDIR with the given value of its directory record sequence element,
if it has one. -/
def sampleManifest (records : Option ElemValue) : Dataset :=
  { patientName := none, studyDate := none, modality := none, rows := none, columns := none,
    imageOrientationPatient := none, seriesDescription := none, pixelData := none,
    directoryRecordSequence := records }

/-- The files of the sample directory `/data`: a DICOMDIR that parses and has
no directory record sequence, a series folder with a valid and a corrupt file
and a text file, a folder whose only file has no pixel data, and a folder with
two valid files, the second without an extension. -/
def sampleParseFile (p : String) : Option Dataset :=
  if p = "/data/DICOMDIR" then some (sampleManifest none)
  else if p = "/data/SE1/IM1.DCM" then
    some (sampleImageFile "[CT]" (some [some ⟨1⟩, none, some ⟨2⟩]))
  else if p = "/data/SE2/BAD.ima" then some (sampleImageFile "[US]" none)
  else if p = "/data/SE3/A.dicom" then some (sampleImageFile "[MR]" (some [some ⟨3⟩]))
  else if p = "/data/SE3/B" then some (sampleImageFile "[PT]" (some [some ⟨4⟩]))
  else none

/-- The walk of the sample directory `/data`. -/
def sampleWalk (d : String) : List WalkEntry :=
  if d = "/data" then
    [⟨"/data", "data", true, false⟩,
     ⟨"/data/DICOMDIR", "DICOMDIR", false, false⟩,
     ⟨"/data/SE1", "SE1", true, false⟩,
     ⟨"/data/SE1/IM1.DCM", "IM1.DCM", false, false⟩,
     ⟨"/data/SE1/IM2.dcm", "IM2.dcm", false, false⟩,
     ⟨"/data/SE1/notes.txt", "notes.txt", false, false⟩,
     ⟨"/data/SE2", "SE2", true, false⟩,
     ⟨"/data/SE2/BAD.ima", "BAD.ima", false, false⟩,
     ⟨"/data/SE3", "SE3", true, false⟩,
     ⟨"/data/SE3/A.dicom", "A.dicom", false, false⟩,
     ⟨"/data/SE3/B", "B", false, false⟩]
  else [⟨d, sampleBase d, false, true⟩]

/-- The sample directory `/data`. -/
def sampleEnv : Env :=
  { stat := fun p => p == "/data/DICOMDIR",
    parseFile := sampleParseFile,
    walk := sampleWalk,
    join := sampleJoin,
    base := sampleBase,
    dir := sampleDir,
    unicodeLower := id,
    parseFloat := sampleParseFloat }

/-- The series mapping of the sample directory. -/
def sampleIndex : SeriesPaths :=
  [("data", ["/data/DICOMDIR"]), ("SE1", ["/data/SE1/IM1.DCM", "/data/SE1/IM2.dcm"]),
   ("SE2", ["/data/SE2/BAD.ima"]), ("SE3", ["/data/SE3/A.dicom", "/data/SE3/B"])]

/-- The series list of the sample directory. -/
def sampleSeries : List DicomSeries :=
  [⟨"SE1", [⟨1⟩, ⟨2⟩], some [("PatientName", "[DOE^JANE]"), ("Modality", "[CT]"),
      ("Dimensions", "&\x7b[512]\x7d x &\x7b[512]\x7d"), ("Orientation", "Unknown")]⟩,
   ⟨"SE3", [⟨3⟩, ⟨4⟩], some [("PatientName", "[DOE^JANE]"), ("Modality", "[MR]"),
      ("Dimensions", "&\x7b[512]\x7d x &\x7b[512]\x7d"), ("Orientation", "Unknown")]⟩]

/-- The sample directory with a DICOMDIR that holds a directory record
sequence of one PATIENT record. -/
def sequenceEnv : Env :=
  { sampleEnv with
    parseFile := fun p =>
      if p = "/data/DICOMDIR" then
        some (sampleManifest (some (.sequenceItems [⟨some "[PATIENT]", none, none⟩])))
      else sampleParseFile p }

/-- An image file with the given strings in its orientation element. -/
def orientationFile (values : List String) : Dataset :=
  { sampleImageFile "[CT]" (some [some ⟨1⟩]) with
    imageOrientationPatient := some (.strings values) }

/-- A directory of image files that differ in their orientation element. -/
def orientationEnv : Env :=
  { sampleEnv with
    parseFile := fun p =>
      if p = "/o/axial" then some (orientationFile ["1", "0", "0", "0", "1", "0"])
      else if p = "/o/doubled" then some (orientationFile ["2", "0", "0", "0", "2", "0"])
      else if p = "/o/huge" then
        some (orientationFile ["1e200", "0", "0", "0", "2e200", "1e200"])
      else if p = "/o/tiny" then
        some (orientationFile ["1e-200", "0", "0", "0", "1e-200", "0"])
      else none }

/-! ## Orientation: properties -/

theorem F64.scaled_cast (n : Bool) (m : Nat) (e e0 : Int) (h : e0 ≤ e) :
    ((F64.scaled n m e e0 : Int) : ℚ) * (2 : ℚ) ^ e0 = (F64.fin n m e).toRat := by
  have hp : ((2 : ℚ) ^ (e - e0).toNat) * (2 : ℚ) ^ e0 = (2 : ℚ) ^ e := by
    rw [← zpow_natCast, Int.toNat_of_nonneg (sub_nonneg.mpr h), ← zpow_add₀ (by norm_num)]
    simp
  unfold F64.scaled F64.toRat
  cases n
  · simp only [Bool.false_eq_true, if_false]
    push_cast
    rw [mul_assoc, hp]
    ring
  · simp only [if_true]
    push_cast
    rw [neg_mul, mul_assoc, hp]
    ring

/-- On finite values the comparison is the comparison of the exact numbers. -/
theorem F64.lt_iff (a b : F64) (ha : a.isFinite = true) (hb : b.isFinite = true) :
    F64.lt a b = true ↔ a.toRat < b.toRat := by
  cases a with
  | nan => simp [F64.isFinite] at ha
  | inf n => simp [F64.isFinite] at ha
  | fin n1 m1 e1 =>
    cases b with
    | nan => simp [F64.isFinite] at hb
    | inf n => simp [F64.isFinite] at hb
    | fin n2 m2 e2 =>
      have hpos : (0 : ℚ) < (2 : ℚ) ^ (min e1 e2) := zpow_pos (by norm_num) _
      rw [← F64.scaled_cast n1 m1 e1 (min e1 e2) (min_le_left e1 e2),
        ← F64.scaled_cast n2 m2 e2 (min e1 e2) (min_le_right e1 e2),
        mul_lt_mul_right hpos, Int.cast_lt]
      simp [F64.lt]

theorem F64.toRat_zero : F64.zero.toRat = 0 := by
  simp [F64.zero, F64.toRat]

/-- On a finite value `abs` is the absolute value of the exact number. -/
theorem abs_finite (x : F64) (hx : x.isFinite = true) :
    (abs x).isFinite = true ∧ (abs x).toRat = |x.toRat| := by
  have hz : F64.zero.isFinite = true := rfl
  have hlt := F64.lt_iff x F64.zero hx hz
  rw [F64.toRat_zero] at hlt
  unfold abs
  by_cases h : F64.lt x F64.zero = true
  · rw [if_pos h]
    have hneg : x.toRat < 0 := hlt.mp h
    cases x with
    | nan => simp [F64.isFinite] at hx
    | inf n => simp [F64.isFinite] at hx
    | fin n m e =>
      refine ⟨rfl, ?_⟩
      rw [abs_of_neg hneg]
      cases n <;> simp [F64.neg, F64.toRat]
  · rw [if_neg h]
    have hnn : 0 ≤ x.toRat := not_lt.mp (fun hlt' => h (hlt.mpr hlt'))
    exact ⟨hx, (abs_of_nonneg hnn).symm⟩

/-- The comparison is asymmetric. -/
theorem F64.lt_asymm (a b : F64) (h : F64.lt a b = true) : F64.lt b a = false := by
  cases a with
  | nan => simp [F64.lt] at h
  | inf n1 =>
    cases b with
    | nan => simp [F64.lt] at h
    | inf n2 => cases n1 <;> cases n2 <;> simp_all [F64.lt]
    | fin n2 m2 e2 => simp_all [F64.lt]
  | fin n1 m1 e1 =>
    cases b with
    | nan => simp [F64.lt] at h
    | inf n2 => simp_all [F64.lt]
    | fin n2 m2 e2 =>
      simp only [F64.lt, decide_eq_true_eq] at h
      simp only [F64.lt, decide_eq_false_iff_not, not_lt, min_comm e2 e1]
      exact le_of_lt h

theorem parseValues_length (pf : String → Option F64) (ov : List String) :
    (parseValues pf ov).length = ov.length := by
  simp [parseValues]

theorem classifyPlane_eq (v : List F64) :
    classifyPlane v =
      if F64.lt (abs (computedCross v).2.1) (abs (computedCross v).1) = true ∧
          F64.lt (abs (computedCross v).2.2) (abs (computedCross v).1) = true then "Sagittal"
      else if F64.lt (abs (computedCross v).1) (abs (computedCross v).2.1) = true ∧
          F64.lt (abs (computedCross v).2.2) (abs (computedCross v).2.1) = true then "Coronal"
      else if F64.lt (abs (computedCross v).1) (abs (computedCross v).2.2) = true ∧
          F64.lt (abs (computedCross v).2.1) (abs (computedCross v).2.2) = true then "Axial"
      else "Unknown" := by
  simp only [classifyPlane, computedCross, Bool.and_eq_true]

/-- The four results of a three-way strict dominance test, for any asymmetric
comparison. -/
theorem dominance_cases (P12 P13 P21 P23 P31 P32 : Prop)
    [Decidable P12] [Decidable P13] [Decidable P21] [Decidable P23] [Decidable P31]
    [Decidable P32]
    (h1 : P12 → ¬ P21) (h2 : P13 → ¬ P31) (h3 : P23 → ¬ P32) (r : String)
    (hr : r = if P12 ∧ P13 then "Sagittal" else if P21 ∧ P23 then "Coronal"
      else if P31 ∧ P32 then "Axial" else "Unknown") :
    (r = "Sagittal" ↔ P12 ∧ P13) ∧ (r = "Coronal" ↔ P21 ∧ P23) ∧
    (r = "Axial" ↔ P31 ∧ P32) ∧
    (r = "Unknown" ↔ ¬ (P12 ∧ P13) ∧ ¬ (P21 ∧ P23) ∧ ¬ (P31 ∧ P32)) := by
  subst hr
  have hS : ("Sagittal" : String) ≠ "Coronal" := by decide
  have hS2 : ("Sagittal" : String) ≠ "Axial" := by decide
  have hS3 : ("Sagittal" : String) ≠ "Unknown" := by decide
  have hC : ("Coronal" : String) ≠ "Axial" := by decide
  have hC2 : ("Coronal" : String) ≠ "Unknown" := by decide
  have hA : ("Axial" : String) ≠ "Unknown" := by decide
  by_cases c1 : P12 ∧ P13
  · have c2 : ¬ (P21 ∧ P23) := fun h => h1 c1.1 h.1
    have c3 : ¬ (P31 ∧ P32) := fun h => h2 c1.2 h.1
    simp [c1, c2, c3, hS, hS2, hS3]
  · by_cases c2 : P21 ∧ P23
    · have c3 : ¬ (P31 ∧ P32) := fun h => h3 c2.2 h.2
      simp [c1, c2, c3, hS.symm, hC, hC2]
    · by_cases c3 : P31 ∧ P32
      · simp [c1, c2, c3, hS2.symm, hC.symm, hA]
      · simp [c1, c2, c3, hS3.symm, hC2.symm, hA.symm]

theorem exactPlane_cases (v : List ℚ) :
    (exactPlane v = "Sagittal" ↔
      |(crossProduct v).1| > |(crossProduct v).2.1| ∧
        |(crossProduct v).1| > |(crossProduct v).2.2|) ∧
    (exactPlane v = "Coronal" ↔
      |(crossProduct v).2.1| > |(crossProduct v).1| ∧
        |(crossProduct v).2.1| > |(crossProduct v).2.2|) ∧
    (exactPlane v = "Axial" ↔
      |(crossProduct v).2.2| > |(crossProduct v).1| ∧
        |(crossProduct v).2.2| > |(crossProduct v).2.1|) ∧
    (exactPlane v = "Unknown" ↔
      ¬ (|(crossProduct v).1| > |(crossProduct v).2.1| ∧
          |(crossProduct v).1| > |(crossProduct v).2.2|) ∧
      ¬ (|(crossProduct v).2.1| > |(crossProduct v).1| ∧
          |(crossProduct v).2.1| > |(crossProduct v).2.2|) ∧
      ¬ (|(crossProduct v).2.2| > |(crossProduct v).1| ∧
          |(crossProduct v).2.2| > |(crossProduct v).2.1|)) :=
  dominance_cases _ _ _ _ _ _ (fun h => not_lt.mpr (le_of_lt h))
    (fun h => not_lt.mpr (le_of_lt h)) (fun h => not_lt.mpr (le_of_lt h)) _ rfl

theorem classifyPlane_cases (v : List F64) :
    (classifyPlane v = "Sagittal" ↔
      F64.lt (abs (computedCross v).2.1) (abs (computedCross v).1) = true ∧
        F64.lt (abs (computedCross v).2.2) (abs (computedCross v).1) = true) ∧
    (classifyPlane v = "Coronal" ↔
      F64.lt (abs (computedCross v).1) (abs (computedCross v).2.1) = true ∧
        F64.lt (abs (computedCross v).2.2) (abs (computedCross v).2.1) = true) ∧
    (classifyPlane v = "Axial" ↔
      F64.lt (abs (computedCross v).1) (abs (computedCross v).2.2) = true ∧
        F64.lt (abs (computedCross v).2.1) (abs (computedCross v).2.2) = true) ∧
    (classifyPlane v = "Unknown" ↔
      ¬ (F64.lt (abs (computedCross v).2.1) (abs (computedCross v).1) = true ∧
          F64.lt (abs (computedCross v).2.2) (abs (computedCross v).1) = true) ∧
      ¬ (F64.lt (abs (computedCross v).1) (abs (computedCross v).2.1) = true ∧
          F64.lt (abs (computedCross v).2.2) (abs (computedCross v).2.1) = true) ∧
      ¬ (F64.lt (abs (computedCross v).1) (abs (computedCross v).2.2) = true ∧
          F64.lt (abs (computedCross v).2.1) (abs (computedCross v).2.2) = true)) :=
  dominance_cases _ _ _ _ _ _
    (fun h => by simp [F64.lt_asymm _ _ h])
    (fun h => by simp [F64.lt_asymm _ _ h])
    (fun h => by simp [F64.lt_asymm _ _ h]) _ (classifyPlane_eq v)

/-- Where the cross product is computed without error, the program names the
plane of the exact cross product. -/
theorem classifyPlane_exact (v : List F64) (h : crossExact v) :
    classifyPlane v = exactPlane (v.map F64.toRat) := by
  obtain ⟨_, f1, f2, f3, e1, e2, e3⟩ := h
  obtain ⟨g1, a1⟩ := abs_finite _ f1
  obtain ⟨g2, a2⟩ := abs_finite _ f2
  obtain ⟨g3, a3⟩ := abs_finite _ f3
  rw [classifyPlane_eq, exactPlane]
  simp only [F64.lt_iff _ _ g1 g2, F64.lt_iff _ _ g1 g3, F64.lt_iff _ _ g2 g1,
    F64.lt_iff _ _ g2 g3, F64.lt_iff _ _ g3 g1, F64.lt_iff _ _ g3 g2, a1, a2, a3, e1, e2, e3,
    gt_iff_lt]

theorem getD_map_mul (k : ℚ) (v : List ℚ) (i : Nat) :
    (v.map (fun x => k * x)).getD i 0 = k * v.getD i 0 := by
  induction v generalizing i with
  | nil => simp
  | cons a t ih =>
    cases i with
    | zero => simp
    | succ n => simpa using ih n

theorem exactPlane_scale (k : ℚ) (hk : 0 < k) (v : List ℚ) :
    exactPlane (v.map (fun x => k * x)) = exactPlane v := by
  have hkk : 0 < k * k := mul_pos hk hk
  have hm : ∀ a b c d : ℚ, |k * a * (k * b) - k * c * (k * d)| = k * k * |a * b - c * d| := by
    intro a b c d
    have : k * a * (k * b) - k * c * (k * d) = k * k * (a * b - c * d) := by ring
    rw [this, abs_mul, abs_of_pos hkk]
  simp only [exactPlane, crossProduct, getD_map_mul, hm, gt_iff_lt, mul_lt_mul_left hkk]

theorem orientationOf_values (pf : String → Option F64) (ov : List String)
    (h : 6 ≤ ov.length) :
    orientationOf pf (some (.strings ov)) = classifyPlane (parseValues pf ov) := by
  simp [orientationOf, asStrings, h]

theorem orientationOf_short (pf : String → Option F64) (ov : List String)
    (h : ov.length < 6) : orientationOf pf (some (.strings ov)) = "Unknown" := by
  have h' : ¬ 6 ≤ ov.length := by omega
  simp [orientationOf, asStrings, h']

theorem lookup_mapSet (es : List (String × String)) (k v k' : String) :
    (mapSet es k v).lookup k' = if k' = k then some v else es.lookup k' := by
  unfold mapSet
  induction es with
  | nil =>
    by_cases h : k' = k
    · simp [List.lookup, h]
    · have hb : (k' == k) = false := by simpa using h
      simp [List.lookup, h, hb]
  | cons e rest ih =>
    obtain ⟨a, b⟩ := e
    by_cases ha : a = k
    · subst ha
      simp only [List.filter_cons, bne_self_eq_false, Bool.false_eq_true, if_false, ih]
      by_cases h : k' = a
      · simp [h]
      · have hb : (k' == a) = false := by simpa using h
        simp [List.lookup, h, hb]
    · have hne : (a != k) = true := by simpa using ha
      simp only [List.filter_cons, hne, if_true, List.cons_append, List.lookup_cons, ih]
      by_cases h : k' = a
      · have hk : ¬ k' = k := fun e => ha (h ▸ e)
        simp [h, ha]
      · have hb : (k' == a) = false := by simpa using h
        simp [hb]

/-- The map built for a parsed file binds "Orientation" to the value computed
by lines 432-473. -/
theorem extractMetadata_orientation (pf : String → Option F64) (ds : Dataset) :
    (extractMetadata pf ds).lookup "Orientation" =
      some (orientationOf pf ds.imageOrientationPatient) := by
  unfold extractMetadata
  cases ds.seriesDescription with
  | none => simp [lookup_mapSet]
  | some d =>
    have h : ¬ ("Orientation" : String) = "SeriesDescription" := by decide
    simp [lookup_mapSet, h]

/-- The "Orientation" entry of the map `extractFramesFromDICOM` returns for a
file that parses, also when the extraction fails later on. -/
theorem extract_orientation (env : Env) (p : String) (ds : Dataset)
    (hp : env.parseFile p = some ds) :
    mapGet (extractFramesFromDICOM env p).metadata "Orientation" =
      some (orientationOf env.parseFloat ds.imageOrientationPatient) := by
  have hm := extractMetadata_orientation env.parseFloat ds
  unfold extractFramesFromDICOM
  simp only [hp]
  cases ds.pixelData with
  | none => simpa [mapGet] using hm
  | some fr =>
    by_cases h0 : fr.length = 0
    · simpa [mapGet, h0] using hm
    · by_cases h1 : (decodeFrames fr).length = 0
      · simpa [mapGet, h0, h1] using hm
      · simpa [mapGet, h0, h1] using hm

theorem getD_isZero (v : List F64) (h : ∀ x ∈ v, x.isZero = true) (i : Nat) :
    (v.getD i F64.zero).isZero = true := by
  induction v generalizing i with
  | nil => rfl
  | cons a t ih =>
    cases i with
    | zero => simpa using h a (List.mem_cons_self a t)
    | succ n => simpa using ih (fun x hx => h x (List.mem_cons_of_mem a hx)) n

theorem mul_isZero (a b : F64) (ha : a.isZero = true) (hb : b.isZero = true) :
    (F64.mul a b).isZero = true := by
  cases a with
  | nan => simp [F64.isZero] at ha
  | inf n => simp [F64.isZero] at ha
  | fin n1 m1 e1 =>
    cases b with
    | nan => simp [F64.isZero] at hb
    | inf n => simp [F64.isZero] at hb
    | fin n2 m2 e2 =>
      simp only [F64.isZero, beq_iff_eq] at ha hb
      subst ha hb
      simp [F64.mul, F64.round, F64.isZero]

theorem sub_isZero (a b : F64) (ha : a.isZero = true) (hb : b.isZero = true) :
    (F64.sub a b).isZero = true := by
  cases a with
  | nan => simp [F64.isZero] at ha
  | inf n => simp [F64.isZero] at ha
  | fin n1 m1 e1 =>
    cases b with
    | nan => simp [F64.isZero] at hb
    | inf n => simp [F64.isZero] at hb
    | fin n2 m2 e2 =>
      simp only [F64.isZero, beq_iff_eq] at ha hb
      subst ha hb
      cases n1 <;> cases n2 <;> simp [F64.sub, F64.scaled, F64.isZero]

theorem abs_isZero (a : F64) (ha : a.isZero = true) : (abs a).isZero = true := by
  unfold abs
  split_ifs
  · cases a <;> simp_all [F64.neg, F64.isZero]
  · exact ha

theorem lt_of_isZero (a b : F64) (ha : a.isZero = true) (hb : b.isZero = true) :
    F64.lt a b = false := by
  cases a with
  | nan => simp [F64.isZero] at ha
  | inf n => simp [F64.isZero] at ha
  | fin n1 m1 e1 =>
    cases b with
    | nan => simp [F64.isZero] at hb
    | inf n => simp [F64.isZero] at hb
    | fin n2 m2 e2 =>
      simp only [F64.isZero, beq_iff_eq] at ha hb
      subst ha hb
      cases n1 <;> cases n2 <;> simp [F64.lt, F64.scaled]

theorem classifyPlane_all_zero (v : List F64) (h : ∀ x ∈ v, x.isZero = true) :
    classifyPlane v = "Unknown" := by
  have g := getD_isZero v h
  have z1 : (computedCross v).1.isZero = true :=
    sub_isZero _ _ (mul_isZero _ _ (g 1) (g 5)) (mul_isZero _ _ (g 2) (g 4))
  have z2 : (computedCross v).2.1.isZero = true :=
    sub_isZero _ _ (mul_isZero _ _ (g 2) (g 3)) (mul_isZero _ _ (g 0) (g 5))
  have z3 : (computedCross v).2.2.isZero = true :=
    sub_isZero _ _ (mul_isZero _ _ (g 0) (g 4)) (mul_isZero _ _ (g 1) (g 3))
  have a1 := abs_isZero _ z1
  have a2 := abs_isZero _ z2
  have a3 := abs_isZero _ z3
  rw [classifyPlane_eq]
  simp [lt_of_isZero _ _ a1 a2, lt_of_isZero _ _ a1 a3, lt_of_isZero _ _ a2 a1,
    lt_of_isZero _ _ a2 a3, lt_of_isZero _ _ a3 a1, lt_of_isZero _ _ a3 a2]

set_option maxRecDepth 8192

set_option exponentiation.threshold 4096

/-- C4, as stated, fails: for the direction cosines `1e200, 0, 0, 0, 2e200,
1e200` the third component of the exact cross product is strictly the largest
in absolute value, so the claim names "Axial"; the program computes two
infinite components that tie and stores "Unknown". -/
theorem orientation_overflow_unknown :
    mapGet (extractFramesFromDICOM orientationEnv "/o/huge").metadata "Orientation" =
      some "Unknown" ∧
    parseValues orientationEnv.parseFloat ["1e200", "0", "0", "0", "2e200", "1e200"] =
      [.fin false 2941796710330669 613, F64.zero, F64.zero, F64.zero,
       .fin false 2941796710330669 614, .fin false 2941796710330669 613] ∧
    computedCross [.fin false 2941796710330669 613, F64.zero, F64.zero, F64.zero,
       .fin false 2941796710330669 614, .fin false 2941796710330669 613] =
      (F64.zero, .inf true, .inf false) ∧
    exactPlane (List.map F64.toRat [.fin false 2941796710330669 613, F64.zero, F64.zero,
       F64.zero, .fin false 2941796710330669 614, .fin false 2941796710330669 613]) =
      "Axial" := by
  refine ⟨by decide, by decide, by decide, ?_⟩
  rw [(exactPlane_cases _).2.2.1]
  have hpos : (0 : ℚ) < (2 : ℚ) ^ (613 : ℤ) := zpow_pos (by norm_num) _
  have h614 : (2 : ℚ) ^ (614 : ℤ) = 2 * (2 : ℚ) ^ (613 : ℤ) := by
    rw [show (614 : ℤ) = 1 + 613 by norm_num, zpow_add₀ (by norm_num)]
    norm_num
  simp only [crossProduct, List.map, List.getD_cons_zero, List.getD_cons_succ, F64.toRat,
    F64.zero, h614]
  generalize (2 : ℚ) ^ (613 : ℤ) = t at hpos
  simp only [Bool.false_eq_true, if_false, one_mul, Nat.cast_ofNat, Nat.cast_zero, mul_zero,
    zero_mul, sub_zero, zero_sub, abs_zero, abs_neg]
  have hp : (0 : ℚ) < 2941796710330669 * t * (2941796710330669 * t) := by positivity
  have key : (2941796710330669 : ℚ) * t * (2941796710330669 * (2 * t)) =
      2 * (2941796710330669 * t * (2941796710330669 * t)) := by ring
  rw [key, abs_of_pos hp, abs_of_pos (by positivity)]
  constructor <;> linarith

/-- C4, amended: for direction cosines `v` (the parsed values of the
orientation element) with at least six entries, the Orientation that
`extractFramesFromDICOM` stores is decided by the cross product as computed in
`float64` arithmetic: "Sagittal" iff the absolute value of its first component
is strictly greater than both others, "Coronal" iff that of the second is,
"Axial" iff that of the third is, "Unknown" otherwise; where the cross product
is computed without error this is the plane of the exact cross product; with
fewer than six values the result is "Unknown"; `[1,0,0,0,1,0]` gives "Axial",
`[0,1,0,0,0,1]` gives "Sagittal", all-zero input gives "Unknown". -/
theorem orientation_by_dominant_axis (env : Env) (p : String) (ds : Dataset)
    (ov : List String) (v : List F64)
    (hp : env.parseFile p = some ds)
    (ho : ds.imageOrientationPatient = some (.strings ov))
    (hv : parseValues env.parseFloat ov = v) :
    (6 ≤ v.length →
      (mapGet (extractFramesFromDICOM env p).metadata "Orientation" = some "Sagittal" ↔
        F64.lt (abs (computedCross v).2.1) (abs (computedCross v).1) = true ∧
          F64.lt (abs (computedCross v).2.2) (abs (computedCross v).1) = true) ∧
      (mapGet (extractFramesFromDICOM env p).metadata "Orientation" = some "Coronal" ↔
        F64.lt (abs (computedCross v).1) (abs (computedCross v).2.1) = true ∧
          F64.lt (abs (computedCross v).2.2) (abs (computedCross v).2.1) = true) ∧
      (mapGet (extractFramesFromDICOM env p).metadata "Orientation" = some "Axial" ↔
        F64.lt (abs (computedCross v).1) (abs (computedCross v).2.2) = true ∧
          F64.lt (abs (computedCross v).2.1) (abs (computedCross v).2.2) = true) ∧
      (mapGet (extractFramesFromDICOM env p).metadata "Orientation" = some "Unknown" ↔
        ¬ (F64.lt (abs (computedCross v).2.1) (abs (computedCross v).1) = true ∧
            F64.lt (abs (computedCross v).2.2) (abs (computedCross v).1) = true) ∧
        ¬ (F64.lt (abs (computedCross v).1) (abs (computedCross v).2.1) = true ∧
            F64.lt (abs (computedCross v).2.2) (abs (computedCross v).2.1) = true) ∧
        ¬ (F64.lt (abs (computedCross v).1) (abs (computedCross v).2.2) = true ∧
            F64.lt (abs (computedCross v).2.1) (abs (computedCross v).2.2) = true))) ∧
    (6 ≤ v.length → crossExact v →
      mapGet (extractFramesFromDICOM env p).metadata "Orientation" =
        some (exactPlane (v.map F64.toRat))) ∧
    (v.length < 6 →
      mapGet (extractFramesFromDICOM env p).metadata "Orientation" = some "Unknown") ∧
    (v = [F64.one, F64.zero, F64.zero, F64.zero, F64.one, F64.zero] →
      mapGet (extractFramesFromDICOM env p).metadata "Orientation" = some "Axial") ∧
    (v = [F64.zero, F64.one, F64.zero, F64.zero, F64.zero, F64.one] →
      mapGet (extractFramesFromDICOM env p).metadata "Orientation" = some "Sagittal") ∧
    ((∀ x ∈ v, x.isZero = true) →
      mapGet (extractFramesFromDICOM env p).metadata "Orientation" = some "Unknown") := by
  have hlen : v.length = ov.length := by rw [← hv, parseValues_length]
  have ho6 : 6 ≤ v.length →
      mapGet (extractFramesFromDICOM env p).metadata "Orientation" =
        some (classifyPlane v) := by
    intro h6
    rw [extract_orientation env p ds hp, ho, orientationOf_values _ ov (hlen ▸ h6), hv]
  have hshort : v.length < 6 →
      mapGet (extractFramesFromDICOM env p).metadata "Orientation" = some "Unknown" := by
    intro h
    rw [extract_orientation env p ds hp, ho, orientationOf_short _ ov (hlen ▸ h)]
  refine ⟨?_, ?_, hshort, ?_, ?_, ?_⟩
  · intro h6
    simp only [ho6 h6, Option.some.injEq]
    exact classifyPlane_cases v
  · intro h6 hex
    rw [ho6 h6, classifyPlane_exact v hex]
  · intro h
    rw [ho6 (by rw [h]; decide), h]
    decide
  · intro h
    rw [ho6 (by rw [h]; decide), h]
    decide
  · intro h
    by_cases h6 : 6 ≤ v.length
    · rw [ho6 h6, classifyPlane_all_zero v h]
    · exact hshort (by omega)

theorem orientation_by_dominant_axis_witness :
    orientationEnv.parseFile "/o/axial" =
      some (orientationFile ["1", "0", "0", "0", "1", "0"]) ∧
    (orientationFile ["1", "0", "0", "0", "1", "0"]).imageOrientationPatient =
      some (.strings ["1", "0", "0", "0", "1", "0"]) ∧
    parseValues orientationEnv.parseFloat ["1", "0", "0", "0", "1", "0"] =
      [F64.one, F64.zero, F64.zero, F64.zero, F64.one, F64.zero] ∧
    mapGet (extractFramesFromDICOM orientationEnv "/o/axial").metadata "Orientation" =
      some "Axial" :=
  ⟨rfl, rfl, by decide,
    (orientation_by_dominant_axis orientationEnv "/o/axial"
      (orientationFile ["1", "0", "0", "0", "1", "0"]) ["1", "0", "0", "0", "1", "0"]
      [F64.one, F64.zero, F64.zero, F64.zero, F64.one, F64.zero] rfl rfl
      (by decide)).2.2.2.1 rfl⟩

/-- C5, as stated, fails: the direction cosines `1, 0, 0, 0, 1, 0` give
"Axial", and the same values scaled by the positive factor `1e-200` give
"Unknown", because the products underflow to zero. -/
theorem orientation_underflow_changes :
    mapGet (extractFramesFromDICOM orientationEnv "/o/axial").metadata "Orientation" =
      some "Axial" ∧
    mapGet (extractFramesFromDICOM orientationEnv "/o/tiny").metadata "Orientation" =
      some "Unknown" ∧
    parseValues orientationEnv.parseFloat ["1", "0", "0", "0", "1", "0"] =
      [F64.one, F64.zero, F64.zero, F64.zero, F64.one, F64.zero] ∧
    parseValues orientationEnv.parseFloat ["1e-200", "0", "0", "0", "1e-200", "0"] =
      [.fin false 1723641332219371 (-715), F64.zero, F64.zero, F64.zero,
       .fin false 1723641332219371 (-715), F64.zero] ∧
    0 < (F64.fin false 1723641332219371 (-715)).toRat ∧
    List.map F64.toRat [.fin false 1723641332219371 (-715), F64.zero, F64.zero, F64.zero,
       .fin false 1723641332219371 (-715), F64.zero] =
      List.map (fun x => (F64.fin false 1723641332219371 (-715)).toRat * x)
        (List.map F64.toRat [F64.one, F64.zero, F64.zero, F64.zero, F64.one, F64.zero]) := by
  refine ⟨by decide, by decide, by decide, by decide, ?_, ?_⟩
  · simp only [F64.toRat, Bool.false_eq_true, if_false, one_mul]
    positivity
  · simp [F64.toRat, F64.zero, F64.one]

/-- C5, amended: when the direction cosines of one file are those of another
scaled by a factor `k > 0`, and both cross products are computed without error
(no rounding, overflow or underflow), `extractFramesFromDICOM` stores the same
Orientation for both. -/
theorem orientation_scale_invariant (env : Env) (p p' : String) (ds ds' : Dataset)
    (ov ov' : List String) (v v' : List F64) (k : ℚ)
    (hp : env.parseFile p = some ds)
    (ho : ds.imageOrientationPatient = some (.strings ov))
    (hv : parseValues env.parseFloat ov = v)
    (hp' : env.parseFile p' = some ds')
    (ho' : ds'.imageOrientationPatient = some (.strings ov'))
    (hv' : parseValues env.parseFloat ov' = v')
    (hk : 0 < k)
    (hscale : v'.map F64.toRat = (v.map F64.toRat).map (fun x => k * x))
    (hex : crossExact v) (hex' : crossExact v') :
    mapGet (extractFramesFromDICOM env p').metadata "Orientation" =
      mapGet (extractFramesFromDICOM env p).metadata "Orientation" := by
  have hl : v'.length = v.length := by
    have := congrArg List.length hscale
    simpa using this
  have hlen : v.length = ov.length := by rw [← hv, parseValues_length]
  have hlen' : v'.length = ov'.length := by rw [← hv', parseValues_length]
  rw [extract_orientation env p ds hp, extract_orientation env p' ds' hp', ho, ho']
  by_cases h6 : 6 ≤ v.length
  · rw [orientationOf_values _ ov (hlen ▸ h6), orientationOf_values _ ov' (hlen' ▸ hl ▸ h6),
      hv, hv', classifyPlane_exact v hex, classifyPlane_exact v' hex', hscale,
      exactPlane_scale k hk]
  · rw [orientationOf_short _ ov (by omega), orientationOf_short _ ov' (by omega)]

theorem orientation_scale_invariant_witness :
    orientationEnv.parseFile "/o/axial" =
      some (orientationFile ["1", "0", "0", "0", "1", "0"]) ∧
    orientationEnv.parseFile "/o/doubled" =
      some (orientationFile ["2", "0", "0", "0", "2", "0"]) ∧
    (0 : ℚ) < 2 ∧
    crossExact [F64.one, F64.zero, F64.zero, F64.zero, F64.one, F64.zero] ∧
    crossExact [.fin false 1 1, F64.zero, F64.zero, F64.zero, .fin false 1 1, F64.zero] ∧
    mapGet (extractFramesFromDICOM orientationEnv "/o/doubled").metadata "Orientation" =
      mapGet (extractFramesFromDICOM orientationEnv "/o/axial").metadata "Orientation" := by
  have c1 : computedCross [F64.one, F64.zero, F64.zero, F64.zero, F64.one, F64.zero] =
      (F64.zero, F64.zero, F64.one) := by decide
  have c2 : computedCross [.fin false 1 1, F64.zero, F64.zero, F64.zero, .fin false 1 1,
      F64.zero] = (F64.zero, F64.zero, .fin false 1 2) := by decide
  have e1 : crossExact [F64.one, F64.zero, F64.zero, F64.zero, F64.one, F64.zero] := by
    refine ⟨by decide, by rw [c1]; rfl, by rw [c1]; rfl, by rw [c1]; rfl, ?_, ?_, ?_⟩ <;>
      rw [c1] <;> simp [crossProduct, F64.toRat, F64.zero, F64.one]
  have e2 : crossExact [.fin false 1 1, F64.zero, F64.zero, F64.zero, .fin false 1 1,
      F64.zero] := by
    refine ⟨by decide, by rw [c2]; rfl, by rw [c2]; rfl, by rw [c2]; rfl, ?_, ?_, ?_⟩ <;>
      rw [c2] <;> norm_num [crossProduct, F64.toRat, F64.zero]
  exact ⟨rfl, rfl, by norm_num, e1, e2,
    orientation_scale_invariant orientationEnv "/o/axial" "/o/doubled"
      (orientationFile ["1", "0", "0", "0", "1", "0"])
      (orientationFile ["2", "0", "0", "0", "2", "0"])
      ["1", "0", "0", "0", "1", "0"] ["2", "0", "0", "0", "2", "0"]
      [F64.one, F64.zero, F64.zero, F64.zero, F64.one, F64.zero]
      [.fin false 1 1, F64.zero, F64.zero, F64.zero, .fin false 1 1, F64.zero] 2
      rfl rfl (by decide) rfl rfl (by decide) (by norm_num)
      (by simp [F64.toRat, F64.zero, F64.one]) e1 e2⟩

/-! ## The series mapping: reads after appends -/

theorem pathsOf_nil (k : String) : pathsOf [] k = [] := rfl

theorem pathsOf_cons (a : String) (ps : List String) (rest : SeriesPaths) (k : String) :
    pathsOf ((a, ps) :: rest) k = if k = a then ps else pathsOf rest k := by
  unfold pathsOf
  by_cases h : k = a
  · simp [List.lookup, h]
  · have hb : (k == a) = false := by simpa using h
    simp [List.lookup, h, hb]

theorem pathsOf_appendPath (m : SeriesPaths) (k p k' : String) :
    pathsOf (appendPath m k p) k' =
      if k' = k then pathsOf m k' ++ [p] else pathsOf m k' := by
  induction m with
  | nil =>
    simp only [appendPath, pathsOf_cons, pathsOf_nil]
    split_ifs <;> simp
  | cons e rest ih =>
    obtain ⟨a, ps⟩ := e
    by_cases ha : a = k
    · subst ha
      simp only [appendPath, if_true, pathsOf_cons]
      split_ifs <;> rfl
    · simp only [appendPath, ha, if_false, pathsOf_cons, ih]
      by_cases h1 : k' = a
      · have h2 : ¬ k' = k := fun e => ha (h1 ▸ e)
        simp [h1, ha]
      · simp [h1]

theorem keys_appendPath (m : SeriesPaths) (k p : String) :
    (appendPath m k p).map Prod.fst =
      if k ∈ m.map Prod.fst then m.map Prod.fst else m.map Prod.fst ++ [k] := by
  induction m with
  | nil => simp [appendPath]
  | cons e rest ih =>
    obtain ⟨a, ps⟩ := e
    by_cases ha : a = k
    · subst ha
      simp [appendPath]
    · have hk : ¬ k = a := fun e => ha e.symm
      simp only [appendPath, ha, if_false, List.map_cons, ih, List.mem_cons, hk, false_or]
      split_ifs <;> simp

theorem nodup_keys_appendPath (m : SeriesPaths) (k p : String)
    (h : (m.map Prod.fst).Nodup) : ((appendPath m k p).map Prod.fst).Nodup := by
  rw [keys_appendPath]
  split_ifs with hk
  · exact h
  · exact List.Nodup.append h (List.nodup_singleton k) (by simpa using hk)

theorem appendPath_ne_nil (m : SeriesPaths) (k p : String) : appendPath m k p ≠ [] := by
  cases m with
  | nil => simp [appendPath]
  | cons e rest =>
    obtain ⟨a, ps⟩ := e
    simp only [appendPath]
    split_ifs <;> simp

/-- An entry of a mapping with distinct keys is what reading its key returns. -/
theorem pathsOf_of_mem (m : SeriesPaths) (h : (m.map Prod.fst).Nodup)
    (k : String) (ps : List String) (hm : (k, ps) ∈ m) : pathsOf m k = ps := by
  induction m with
  | nil => cases hm
  | cons e rest ih =>
    obtain ⟨a, qs⟩ := e
    rw [List.map_cons, List.nodup_cons] at h
    rw [pathsOf_cons]
    rcases List.mem_cons.mp hm with heq | hin
    · cases heq
      simp
    · have hne : k ≠ a := by
        intro e
        apply h.1
        rw [← e]
        exact List.mem_map.mpr ⟨(k, ps), hin, rfl⟩
      simp [hne, ih h.2 hin]

/-- A key that reads as a non-empty slice is bound to it. -/
theorem mem_of_pathsOf_ne_nil (m : SeriesPaths) (k : String) (h : pathsOf m k ≠ []) :
    (k, pathsOf m k) ∈ m := by
  induction m with
  | nil => exact absurd (pathsOf_nil k) h
  | cons e rest ih =>
    obtain ⟨a, qs⟩ := e
    rw [pathsOf_cons] at h ⊢
    by_cases hk : k = a
    · simp [hk]
    · simp only [hk, if_false] at h ⊢
      exact List.mem_cons_of_mem _ (ih h)

/-! ## The directory traversal -/

theorem walkFn_eq (env : Env) (m : SeriesPaths) (e : WalkEntry) :
    walkFn env m e =
      if e.err then none
      else some (if accepted env e then appendPath m (env.base (env.dir e.path)) e.path
        else m) := by
  unfold walkFn accepted
  cases e.err <;> cases e.isDir <;> cases isCandidate env.unicodeLower e.name <;> simp

theorem walkAll_no_err (env : Env) (es : List WalkEntry) (m m' : SeriesPaths)
    (h : walkAll env m es = some m') : ∀ e ∈ es, e.err = false := by
  induction es generalizing m with
  | nil => intro e he; cases he
  | cons e rest ih =>
    intro x hx
    rw [walkAll, walkFn_eq] at h
    cases herr : e.err with
    | true => simp [herr] at h
    | false =>
      simp only [herr, Bool.false_eq_true, if_false] at h
      rcases List.mem_cons.mp hx with rfl | hin
      · exact herr
      · exact ih _ h x hin

theorem walkAll_of_no_err (env : Env) (es : List WalkEntry) (m : SeriesPaths)
    (h : ∀ e ∈ es, e.err = false) : ∃ m', walkAll env m es = some m' := by
  induction es generalizing m with
  | nil => exact ⟨m, rfl⟩
  | cons e rest ih =>
    rw [walkAll, walkFn_eq]
    simp only [h e (List.mem_cons_self e rest), Bool.false_eq_true, if_false]
    exact ih _ (fun x hx => h x (List.mem_cons_of_mem e hx))

theorem pathsOf_walkAll (env : Env) (es : List WalkEntry) (m m' : SeriesPaths)
    (h : walkAll env m es = some m') (k : String) :
    pathsOf m' k = pathsOf m k ++ walkedPaths env es k := by
  induction es generalizing m with
  | nil =>
    simp only [walkAll, Option.some.injEq] at h
    simp [walkedPaths, h]
  | cons e rest ih =>
    rw [walkAll, walkFn_eq] at h
    cases herr : e.err with
    | true => simp [herr] at h
    | false =>
      simp only [herr, Bool.false_eq_true, if_false] at h
      rw [ih _ h]
      by_cases hacc : accepted env e = true
      · by_cases hk : env.base (env.dir e.path) = k
        · simp [walkedPaths, hacc, hk, pathsOf_appendPath, List.filter_cons]
        · have hk' : ¬ k = env.base (env.dir e.path) := fun x => hk x.symm
          simp [walkedPaths, hacc, hk, hk', pathsOf_appendPath, List.filter_cons]
      · simp [walkedPaths, hacc, List.filter_cons]

theorem nodup_keys_walkAll (env : Env) (es : List WalkEntry) (m m' : SeriesPaths)
    (h : walkAll env m es = some m') (hm : (m.map Prod.fst).Nodup) :
    (m'.map Prod.fst).Nodup := by
  induction es generalizing m with
  | nil =>
    simp only [walkAll, Option.some.injEq] at h
    exact h ▸ hm
  | cons e rest ih =>
    rw [walkAll, walkFn_eq] at h
    cases herr : e.err with
    | true => simp [herr] at h
    | false =>
      simp only [herr, Bool.false_eq_true, if_false] at h
      refine ih _ h ?_
      split_ifs
      · exact nodup_keys_appendPath m _ _ hm
      · exact hm

theorem mem_walkedPaths (env : Env) (es : List WalkEntry) (k p : String) :
    p ∈ walkedPaths env es k ↔
      ∃ e ∈ es, accepted env e = true ∧ env.base (env.dir e.path) = k ∧ e.path = p := by
  simp only [walkedPaths, List.mem_map, List.mem_filter, Bool.and_eq_true, beq_iff_eq]
  constructor
  · rintro ⟨e, ⟨he, ha, hk⟩, hp⟩
    exact ⟨e, he, ha, hk, hp⟩
  · rintro ⟨e, he, ha, hk, hp⟩
    exact ⟨e, ⟨he, ha, hk⟩, hp⟩

/-! ## The manifest stage -/

/-- The manifest stage never returns an error, and a mapping it returns is
empty: where the DICOMDIR has a directory record sequence the assertion of
line 303 panics, so the loop of lines 305-322 adds nothing. -/
theorem manifestIndex_ok (env : Env) (dirPath : String) :
    manifestIndex env dirPath = .ok [] ∨ manifestIndex env dirPath = .panic := by
  simp only [manifestIndex]
  generalize env.stat (env.join [dirPath, "DICOMDIR"]) = st
  generalize env.parseFile (env.join [dirPath, "DICOMDIR"]) = pr
  cases st with
  | false => simp
  | true =>
    cases pr with
    | none => simp
    | some ds =>
      cases h : ds.directoryRecordSequence with
      | none => simp [h]
      | some v => cases v <;> simp [h, asDatasets]

/-- The mapping is the one built by the traversal whenever the manifest stage
returns. -/
theorem seriesIndex_eq (env : Env) (dirPath : String) :
    seriesIndex env dirPath =
      match manifestIndex env dirPath with
      | .ok _ => traversalIndex env dirPath
      | .error => .error
      | .panic => .panic := by
  unfold seriesIndex traversalIndex
  rcases manifestIndex_ok env dirPath with h | h <;> simp [h]

theorem walkAll_of_seriesIndex (env : Env) (dirPath : String) (idx : SeriesPaths)
    (h : seriesIndex env dirPath = .ok idx) :
    manifestIndex env dirPath = .ok [] ∧ walkAll env [] (env.walk dirPath) = some idx := by
  rw [seriesIndex_eq] at h
  rcases manifestIndex_ok env dirPath with hm | hm
  · refine ⟨hm, ?_⟩
    simp only [hm, traversalIndex] at h
    cases hw : walkAll env [] (env.walk dirPath) with
    | none => simp [hw] at h
    | some m =>
      simp only [hw, Outcome.ok.injEq] at h
      rw [h]
  · simp [hm] at h

/-- Where the DICOMDIR parses and has a directory record sequence element, the
call ends in the panic of line 303. -/
theorem loadDICOMSeries_panics (env : Env) (dirPath : String) (ds : Dataset) (v : ElemValue)
    (hs : env.stat (env.join [dirPath, "DICOMDIR"]) = true)
    (hp : env.parseFile (env.join [dirPath, "DICOMDIR"]) = some ds)
    (hv : ds.directoryRecordSequence = some v) :
    loadDICOMSeries env dirPath = .panic := by
  have hm : manifestIndex env dirPath = .panic := by
    simp only [manifestIndex, hs, hp, hv]
    cases v <;> simp [asDatasets]
  simp [loadDICOMSeries, seriesIndex, hm]

theorem loadDICOMSeries_panics_sample : loadDICOMSeries sequenceEnv "/data" = .panic := by
  decide

theorem nodup_keys_seriesIndex (env : Env) (dirPath : String) (idx : SeriesPaths)
    (h : seriesIndex env dirPath = .ok idx) : (idx.map Prod.fst).Nodup :=
  nodup_keys_walkAll env _ [] idx (walkAll_of_seriesIndex env dirPath idx h).2 (by simp)

/-! ## Frame extraction and series assembly -/

theorem decodeFrames_foldl (frames : List (Option Image)) (acc : List Image) :
    frames.foldl (fun acc frame => match frame with
      | some img => acc ++ [img]
      | none => acc) acc = acc ++ frames.filterMap id := by
  induction frames generalizing acc with
  | nil => simp
  | cons f rest ih =>
    cases f with
    | none => simp [ih]
    | some img => simp [ih]

/-- The decoded frames are the frames that decode, in their order. -/
theorem decodeFrames_eq (frames : List (Option Image)) :
    decodeFrames frames = frames.filterMap id := by
  unfold decodeFrames
  rw [decodeFrames_foldl]
  simp

/-- A successful extraction returns at least one frame and a non-nil map. -/
theorem extract_success (env : Env) (p : String)
    (h : (extractFramesFromDICOM env p).err = none) :
    (extractFramesFromDICOM env p).frames ≠ [] ∧
      ∃ m, (extractFramesFromDICOM env p).metadata = some m := by
  unfold extractFramesFromDICOM at h ⊢
  cases hp : env.parseFile p with
  | none => simp [hp] at h
  | some ds =>
    simp only [hp] at h ⊢
    cases hd : ds.pixelData with
    | none => simp [hd] at h
    | some fr =>
      simp only [hd] at h ⊢
      by_cases h0 : fr.length = 0
      · simp [h0] at h
      · simp only [h0, if_false] at h ⊢
        by_cases h1 : (decodeFrames fr).length = 0
        · simp [h1] at h
        · simp only [h1, if_false]
          exact ⟨fun e => h1 (by rw [e]; rfl), _, rfl⟩

/-- A failed extraction returns no frames. -/
theorem extract_failure (env : Env) (p : String)
    (h : (extractFramesFromDICOM env p).err ≠ none) :
    (extractFramesFromDICOM env p).frames = [] := by
  unfold extractFramesFromDICOM at h ⊢
  cases hp : env.parseFile p with
  | none => simp
  | some ds =>
    simp only [hp] at h ⊢
    cases hd : ds.pixelData with
    | none => simp
    | some fr =>
      simp only [hd] at h ⊢
      by_cases h0 : fr.length = 0
      · simp [h0]
      · simp only [h0, if_false] at h ⊢
        by_cases h1 : (decodeFrames fr).length = 0
        · simp [h1]
        · simp [h1] at h

/-- The frames of a successful extraction are the frames of the pixel data
that decode, in their order. -/
theorem extract_frames_eq (env : Env) (p : String) (ds : Dataset)
    (fr : List (Option Image)) (hp : env.parseFile p = some ds)
    (hd : ds.pixelData = some fr) (h : (extractFramesFromDICOM env p).err = none) :
    (extractFramesFromDICOM env p).frames = fr.filterMap id := by
  unfold extractFramesFromDICOM at h ⊢
  simp only [hp, hd] at h ⊢
  by_cases h0 : fr.length = 0
  · simp [h0] at h
  · simp only [h0, if_false] at h ⊢
    by_cases h1 : (decodeFrames fr).length = 0
    · simp [h1] at h
    · simp only [h1, if_false]
      exact decodeFrames_eq fr

theorem foldl_fileStep (env : Env) (paths : List String) (fs : List Image) (md : MetaMap) :
    paths.foldl (fileStep env) (fs, md) =
      (fs ++ successFrames env paths,
        match md with
        | some m => some m
        | none =>
          match firstSuccess env paths with
          | some p => (extractFramesFromDICOM env p).metadata
          | none => none) := by
  induction paths generalizing fs md with
  | nil => cases md <;> simp [successFrames, firstSuccess]
  | cons p rest ih =>
    rw [List.foldl_cons]
    cases he : (extractFramesFromDICOM env p).err with
    | some e =>
      have hstep : fileStep env (fs, md) p = (fs, md) := by simp [fileStep, he]
      rw [hstep, ih]
      simp [successFrames, firstSuccess, he, List.find?_cons]
    | none =>
      obtain ⟨_, m, hm⟩ := extract_success env p he
      have hstep : fileStep env (fs, md) p =
          (fs ++ (extractFramesFromDICOM env p).frames,
            match md with
            | none => (extractFramesFromDICOM env p).metadata
            | some x => some x) := by simp [fileStep, he]
      rw [hstep, ih]
      cases md with
      | none => simp [successFrames, firstSuccess, he, hm, List.find?_cons]
      | some x => simp [successFrames, he]

theorem processSeries_eq (env : Env) (paths : List String) :
    processSeries env paths =
      (successFrames env paths,
        match firstSuccess env paths with
        | some p => (extractFramesFromDICOM env p).metadata
        | none => none) := by
  unfold processSeries
  rw [foldl_fileStep]
  simp

theorem foldl_seriesStep (env : Env) (sp : SeriesPaths) (acc : List DicomSeries) :
    sp.foldl (seriesStep env) acc = acc ++ sp.filterMap (emitSeries env) := by
  induction sp generalizing acc with
  | nil => simp
  | cons e rest ih =>
    rw [List.foldl_cons, ih]
    by_cases h : (processSeries env e.2).1.length > 0
    · simp [seriesStep, emitSeries, h, List.filterMap_cons]
    · simp [seriesStep, emitSeries, h, List.filterMap_cons]

theorem assembleSeries_eq (env : Env) (sp : SeriesPaths) :
    assembleSeries env sp = sp.filterMap (emitSeries env) := by
  unfold assembleSeries
  rw [foldl_seriesStep]
  simp

theorem loadDICOMSeries_eq (env : Env) (dirPath : String) (idx : SeriesPaths)
    (h : seriesIndex env dirPath = .ok idx) :
    loadDICOMSeries env dirPath = .ok (assembleSeries env idx) := by
  simp [loadDICOMSeries, h]

/-- A series of the list comes from one entry of the mapping: it carries the
entry's key, and the frames and metadata accumulated over the entry's paths. -/
theorem mem_assembleSeries (env : Env) (sp : SeriesPaths) (hn : (sp.map Prod.fst).Nodup)
    (s : DicomSeries) (hs : s ∈ assembleSeries env sp) :
    s.frames ≠ [] ∧
      s.frames = successFrames env (pathsOf sp s.seriesPath) ∧
      s.metadata = (processSeries env (pathsOf sp s.seriesPath)).2 := by
  rw [assembleSeries_eq, List.mem_filterMap] at hs
  obtain ⟨⟨k, ps⟩, hmem, hemit⟩ := hs
  have hk := pathsOf_of_mem sp hn k ps hmem
  unfold emitSeries at hemit
  split_ifs at hemit with hlen
  simp only [Option.some.injEq] at hemit
  subst hemit
  simp only [hk]
  refine ⟨?_, ?_, trivial⟩
  · intro e
    rw [e] at hlen
    exact absurd hlen (by simp)
  · rw [processSeries_eq]

/-- A key whose paths yield at least one frame gets a series. -/
theorem assembleSeries_complete (env : Env) (sp : SeriesPaths) (k : String)
    (h : successFrames env (pathsOf sp k) ≠ []) :
    ∃ s ∈ assembleSeries env sp, s.seriesPath = k ∧
      s.frames = successFrames env (pathsOf sp k) := by
  have hne : pathsOf sp k ≠ [] := by
    intro e
    rw [e] at h
    exact h rfl
  have hmem := mem_of_pathsOf_ne_nil sp k hne
  have hlen : (processSeries env (pathsOf sp k)).1.length > 0 := by
    rw [processSeries_eq]
    exact List.length_pos.mpr h
  refine ⟨⟨k, (processSeries env (pathsOf sp k)).1, (processSeries env (pathsOf sp k)).2⟩,
    ?_, rfl, ?_⟩
  · rw [assembleSeries_eq, List.mem_filterMap]
    exact ⟨(k, pathsOf sp k), hmem, by simp [emitSeries, hlen]⟩
  · rw [processSeries_eq]

/-! ## Series assembly: properties -/

theorem successFrames_eq_nil (env : Env) (paths : List String)
    (h : ∀ p ∈ paths, (extractFramesFromDICOM env p).err ≠ none ∨
      (extractFramesFromDICOM env p).frames = []) :
    successFrames env paths = [] := by
  induction paths with
  | nil => rfl
  | cons p rest ih =>
    have hrest := ih (fun q hq => h q (List.mem_cons_of_mem p hq))
    rcases h p (List.mem_cons_self p rest) with he | hf
    · simp [successFrames, he, hrest]
    · simp [successFrames, hf, hrest]

/-- Where some frame is accumulated, the paths split at the first file whose
extraction succeeds. -/
theorem firstSuccess_split (env : Env) (paths : List String)
    (h : successFrames env paths ≠ []) :
    ∃ pre p post, paths = pre ++ p :: post ∧
      (∀ q ∈ pre, (extractFramesFromDICOM env q).err ≠ none) ∧
      (extractFramesFromDICOM env p).err = none ∧
      firstSuccess env paths = some p := by
  induction paths with
  | nil => exact absurd rfl h
  | cons a rest ih =>
    cases he : (extractFramesFromDICOM env a).err with
    | none =>
      exact ⟨[], a, rest, rfl, by simp, he, by simp [firstSuccess, he, List.find?_cons]⟩
    | some e =>
      have hrest : successFrames env rest ≠ [] := by
        simpa [successFrames, he] using h
      obtain ⟨pre, p, post, hsplit, hpre, hp, hfirst⟩ := ih hrest
      refine ⟨a :: pre, p, post, by simp [hsplit], ?_, hp, ?_⟩
      · intro q hq
        rcases List.mem_cons.mp hq with rfl | hin
        · simp [he]
        · exact hpre q hin
      · simpa [firstSuccess, he, List.find?_cons] using hfirst

/-- C1: every series in the list returned by `loadDICOMSeries` has at least one
frame, and a series identifier all of whose files fail, or yield no frames, is
not the identifier of any returned series. -/
theorem loaded_series_have_frames (env : Env) (dirPath : String) (idx : SeriesPaths)
    (out : List DicomSeries)
    (hidx : seriesIndex env dirPath = .ok idx)
    (hout : loadDICOMSeries env dirPath = .ok out) :
    (∀ s ∈ out, 0 < s.frames.length) ∧
    (∀ uid, (∀ p ∈ pathsOf idx uid, (extractFramesFromDICOM env p).err ≠ none ∨
        (extractFramesFromDICOM env p).frames = []) →
      ∀ s ∈ out, s.seriesPath ≠ uid) := by
  rw [loadDICOMSeries_eq env dirPath idx hidx, Outcome.ok.injEq] at hout
  subst hout
  have hn := nodup_keys_seriesIndex env dirPath idx hidx
  refine ⟨?_, ?_⟩
  · intro s hs
    exact List.length_pos.mpr (mem_assembleSeries env idx hn s hs).1
  · intro uid hfail s hs huid
    obtain ⟨hne, hfr, _⟩ := mem_assembleSeries env idx hn s hs
    rw [huid, successFrames_eq_nil env _ hfail] at hfr
    exact hne hfr

theorem loaded_series_have_frames_witness :
    seriesIndex sampleEnv "/data" = .ok sampleIndex ∧
    loadDICOMSeries sampleEnv "/data" = .ok sampleSeries ∧
    (∀ s ∈ sampleSeries, 0 < s.frames.length) ∧
    (∀ s ∈ sampleSeries, s.seriesPath ≠ "SE2") :=
  ⟨by decide, by decide,
    (loaded_series_have_frames sampleEnv "/data" sampleIndex sampleSeries
      (by decide) (by decide)).1,
    (loaded_series_have_frames sampleEnv "/data" sampleIndex sampleSeries
      (by decide) (by decide)).2 "SE2" (by decide)⟩

/-- C2: the frames of every returned series are the concatenation, in path
order, of the frames returned for the files of the series whose extraction
succeeds; a failing file adds nothing and does not end the series, so every
identifier with a succeeding file gets a series, and the frames a file returns
are those of its pixel data that decode, in their order; a series of one valid and one
corrupt file, in either order, is returned with exactly the valid file's
frames. -/
theorem loaded_frames_are_concatenation (env : Env) (dirPath : String) (idx : SeriesPaths)
    (out : List DicomSeries)
    (hidx : seriesIndex env dirPath = .ok idx)
    (hout : loadDICOMSeries env dirPath = .ok out) :
    (∀ s ∈ out, s.frames = successFrames env (pathsOf idx s.seriesPath)) ∧
    (∀ p ds fr, env.parseFile p = some ds → ds.pixelData = some fr →
      (extractFramesFromDICOM env p).err = none →
      (extractFramesFromDICOM env p).frames = fr.filterMap id) ∧
    (∀ uid, successFrames env (pathsOf idx uid) ≠ [] →
      ∃ s ∈ out, s.seriesPath = uid) ∧
    (∀ uid valid corrupt,
      (pathsOf idx uid = [valid, corrupt] ∨ pathsOf idx uid = [corrupt, valid]) →
      (extractFramesFromDICOM env valid).err = none →
      (extractFramesFromDICOM env corrupt).err ≠ none →
      ∃ s ∈ out, s.seriesPath = uid ∧
        s.frames = (extractFramesFromDICOM env valid).frames) := by
  rw [loadDICOMSeries_eq env dirPath idx hidx, Outcome.ok.injEq] at hout
  subst hout
  have hn := nodup_keys_seriesIndex env dirPath idx hidx
  refine ⟨?_, extract_frames_eq env, ?_, ?_⟩
  · intro s hs
    exact (mem_assembleSeries env idx hn s hs).2.1
  · intro uid h
    obtain ⟨s, hs, hk, _⟩ := assembleSeries_complete env idx uid h
    exact ⟨s, hs, hk⟩
  · intro uid valid corrupt hpaths hv hc
    have hvf := (extract_success env valid hv).1
    have hfr : successFrames env (pathsOf idx uid) =
        (extractFramesFromDICOM env valid).frames := by
      rcases hpaths with h | h <;> simp [h, successFrames, hv, hc]
    obtain ⟨s, hs, hk, hf⟩ := assembleSeries_complete env idx uid (by rw [hfr]; exact hvf)
    exact ⟨s, hs, hk, hf.trans hfr⟩

theorem loaded_frames_are_concatenation_witness :
    seriesIndex sampleEnv "/data" = .ok sampleIndex ∧
    loadDICOMSeries sampleEnv "/data" = .ok sampleSeries ∧
    (∃ s ∈ sampleSeries, s.seriesPath = "SE1" ∧
      s.frames = (extractFramesFromDICOM sampleEnv "/data/SE1/IM1.DCM").frames) :=
  ⟨by decide, by decide,
    (loaded_frames_are_concatenation sampleEnv "/data" sampleIndex sampleSeries
      (by decide) (by decide)).2.2.2
      "SE1" "/data/SE1/IM1.DCM" "/data/SE1/IM2.dcm" (Or.inl (by decide)) (by decide)
      (by decide)⟩

/-- C3: the metadata of every returned series is the metadata returned for the
first file, in path order, whose extraction succeeds: every file before it
fails, and neither those failures nor any later file change the map. -/
theorem loaded_metadata_from_first_success (env : Env) (dirPath : String)
    (idx : SeriesPaths) (out : List DicomSeries)
    (hidx : seriesIndex env dirPath = .ok idx)
    (hout : loadDICOMSeries env dirPath = .ok out) :
    ∀ s ∈ out, ∃ pre p post,
      pathsOf idx s.seriesPath = pre ++ p :: post ∧
      (∀ q ∈ pre, (extractFramesFromDICOM env q).err ≠ none) ∧
      (extractFramesFromDICOM env p).err = none ∧
      s.metadata = (extractFramesFromDICOM env p).metadata := by
  rw [loadDICOMSeries_eq env dirPath idx hidx, Outcome.ok.injEq] at hout
  subst hout
  have hn := nodup_keys_seriesIndex env dirPath idx hidx
  intro s hs
  obtain ⟨hne, hfr, hmd⟩ := mem_assembleSeries env idx hn s hs
  obtain ⟨pre, p, post, hsplit, hpre, hp, hfirst⟩ :=
    firstSuccess_split env (pathsOf idx s.seriesPath) (hfr ▸ hne)
  refine ⟨pre, p, post, hsplit, hpre, hp, ?_⟩
  rw [hmd, processSeries_eq, hfirst]

theorem loaded_metadata_from_first_success_witness :
    seriesIndex sampleEnv "/data" = .ok sampleIndex ∧
    loadDICOMSeries sampleEnv "/data" = .ok sampleSeries ∧
    (⟨"SE3", [⟨3⟩, ⟨4⟩], some [("PatientName", "[DOE^JANE]"), ("Modality", "[MR]"),
        ("Dimensions", "&\x7b[512]\x7d x &\x7b[512]\x7d"), ("Orientation", "Unknown")]⟩ : DicomSeries) ∈
      sampleSeries ∧
    (∃ pre p post,
      pathsOf sampleIndex "SE3" = pre ++ p :: post ∧
      (∀ q ∈ pre, (extractFramesFromDICOM sampleEnv q).err ≠ none) ∧
      (extractFramesFromDICOM sampleEnv p).err = none ∧
      some [("PatientName", "[DOE^JANE]"), ("Modality", "[MR]"),
        ("Dimensions", "&\x7b[512]\x7d x &\x7b[512]\x7d"), ("Orientation", "Unknown")] =
        (extractFramesFromDICOM sampleEnv p).metadata) :=
  ⟨by decide, by decide, by decide,
    loaded_metadata_from_first_success sampleEnv "/data" sampleIndex sampleSeries
      (by decide) (by decide)
      ⟨"SE3", [⟨3⟩, ⟨4⟩], some [("PatientName", "[DOE^JANE]"), ("Modality", "[MR]"),
        ("Dimensions", "&\x7b[512]\x7d x &\x7b[512]\x7d"), ("Orientation", "Unknown")]⟩ (by decide)⟩

/-! ## The candidate test -/

theorem char_toLower_eq_dot (c : Char) : c.toLower = '.' ↔ c = '.' := by
  by_cases h : c.toNat ≥ 65 ∧ c.toNat ≤ 90
  · have h1 : c ≠ '.' := by
      rintro rfl
      revert h
      decide
    have h2 : Char.ofNat (c.toNat + 32) ≠ '.' := by
      obtain ⟨ha, hb⟩ := h
      generalize c.toNat = n at ha hb
      interval_cases n <;> decide
    simp [Char.toLower, h, h1, h2]
  · simp [Char.toLower, h]

theorem toLowerRune_eq_dot (u : Char → Char) (hu : ∀ c : Char, 128 ≤ c.val → u c ≠ '.')
    (c : Char) : toLowerRune u c = '.' ↔ c = '.' := by
  unfold toLowerRune
  by_cases h : c.val < 128
  · simp only [h, if_true]
    exact char_toLower_eq_dot c
  · simp only [h, if_false]
    have hc : c ≠ '.' := by
      rintro rfl
      exact h (by decide)
    simp [hc, hu c (by simpa using h)]

theorem contains_dot_toLower (u : Char → Char) (hu : ∀ c : Char, 128 ≤ c.val → u c ≠ '.')
    (name : String) : (toLower u name).contains '.' = true ↔ '.' ∈ name.toList := by
  simp only [toLower, List.contains, List.elem_eq_mem, decide_eq_true_eq, List.mem_map]
  constructor
  · rintro ⟨c, hc, hl⟩
    rw [(toLowerRune_eq_dot u hu c).mp hl] at hc
    exact hc
  · intro h
    exact ⟨'.', h, (toLowerRune_eq_dot u hu '.').mpr rfl⟩

theorem hasSuffix_toLower (u : Char → Char) (name suffix : String) :
    hasSuffix (toLower u name) suffix = endsWithIgnoringCase u name suffix := by
  rw [Bool.eq_iff_iff]
  simp only [hasSuffix, toLower, endsWithIgnoringCase, List.isSuffixOf_iff_suffix,
    List.suffix_iff_eq_drop, List.length_map, List.map_drop, beq_iff_eq]
  exact eq_comm

/-- The candidate test accepts a name iff, compared case-insensitively, it ends
in one of the three suffixes, or it has no dot. -/
theorem isCandidate_iff (u : Char → Char) (hu : ∀ c : Char, 128 ≤ c.val → u c ≠ '.')
    (name : String) :
    isCandidate u name = true ↔
      endsWithIgnoringCase u name ".dcm" = true ∨
      endsWithIgnoringCase u name ".dicom" = true ∨
      endsWithIgnoringCase u name ".ima" = true ∨
      '.' ∉ name.toList := by
  have hc := contains_dot_toLower u hu name
  simp only [isCandidate, Bool.or_eq_true, hasSuffix_toLower, Bool.not_eq_true',
    ← Bool.not_eq_true, hc, or_assoc]

theorem accepted_iff (env : Env) (e : WalkEntry) :
    accepted env e = true ↔ e.isDir = false ∧ isCandidate env.unicodeLower e.name = true := by
  simp [accepted]

/-- C6: in the filesystem strategy a regular file is a candidate iff its name,
compared case-insensitively, ends in ".dcm", ".dicom" or ".ima", or has no dot;
every candidate is listed under the name of its parent directory, the paths
listed are exactly those of the candidates, and a file that is not a candidate
is listed under no series. -/
theorem traversal_lists_candidates (env : Env) (dirPath : String) (idx : SeriesPaths)
    (hu : ∀ c : Char, 128 ≤ c.val → env.unicodeLower c ≠ '.')
    (hidx : seriesIndex env dirPath = .ok idx) :
    (∀ name : String,
      isCandidate env.unicodeLower name = true ↔
        endsWithIgnoringCase env.unicodeLower name ".dcm" = true ∨
        endsWithIgnoringCase env.unicodeLower name ".dicom" = true ∨
        endsWithIgnoringCase env.unicodeLower name ".ima" = true ∨
        '.' ∉ name.toList) ∧
    (∀ e ∈ env.walk dirPath, e.isDir = false →
      isCandidate env.unicodeLower e.name = true →
      e.path ∈ pathsOf idx (env.base (env.dir e.path))) ∧
    (∀ k p, p ∈ pathsOf idx k ↔
      ∃ e ∈ env.walk dirPath, e.isDir = false ∧
        isCandidate env.unicodeLower e.name = true ∧
        env.base (env.dir e.path) = k ∧ e.path = p) ∧
    (∀ e ∈ env.walk dirPath, e.isDir = false →
      isCandidate env.unicodeLower e.name = false →
      (∀ e' ∈ env.walk dirPath, e'.path = e.path → e' = e) →
      ∀ k, e.path ∉ pathsOf idx k) := by
  replace hidx := (walkAll_of_seriesIndex env dirPath idx hidx).2
  have hp : ∀ k p, p ∈ pathsOf idx k ↔
      ∃ e ∈ env.walk dirPath, e.isDir = false ∧
        isCandidate env.unicodeLower e.name = true ∧
        env.base (env.dir e.path) = k ∧ e.path = p := by
    intro k p
    rw [pathsOf_walkAll env _ [] idx hidx k, pathsOf_nil, List.nil_append, mem_walkedPaths]
    simp only [accepted_iff, and_assoc]
  refine ⟨isCandidate_iff env.unicodeLower hu, ?_, hp, ?_⟩
  · intro e he hd hc
    exact (hp _ _).mpr ⟨e, he, hd, hc, rfl, rfl⟩
  · intro e he _ hc huniq k hin
    obtain ⟨e', he', _, hc', _, hpath⟩ := (hp k e.path).mp hin
    rw [huniq e' he' hpath, hc] at hc'
    exact absurd hc' (by decide)

theorem traversal_lists_candidates_witness :
    (∀ c : Char, 128 ≤ c.val → sampleEnv.unicodeLower c ≠ '.') ∧
    seriesIndex sampleEnv "/data" = .ok sampleIndex ∧
    ("/data/SE1/IM1.DCM" ∈ pathsOf sampleIndex "SE1") ∧
    (∀ k, "/data/SE1/notes.txt" ∉ pathsOf sampleIndex k) :=
  ⟨fun c h e => absurd (e ▸ h : (128 : UInt32) ≤ '.'.val) (by decide), by decide,
    (traversal_lists_candidates sampleEnv "/data" sampleIndex
      (fun c h e => absurd (e ▸ h : (128 : UInt32) ≤ '.'.val) (by decide))
      (by decide)).2.1
      ⟨"/data/SE1/IM1.DCM", "IM1.DCM", false, false⟩ (by decide) rfl (by decide),
    (traversal_lists_candidates sampleEnv "/data" sampleIndex
      (fun c h e => absurd (e ▸ h : (128 : UInt32) ≤ '.'.val) (by decide))
      (by decide)).2.2.2
      ⟨"/data/SE1/notes.txt", "notes.txt", false, false⟩ (by decide) rfl (by decide)
      (by decide)⟩

/-! ## One series per path -/

/-- C7: in the mapping built by `loadDICOMSeries` each file path is listed
under at most one series identifier. The manifest stage never contributes an
entry (it ends in the panic of line 303 or leaves the mapping empty), so every
mapping that is built comes from the traversal, which keys a path by the name
of its parent directory. -/
theorem path_under_one_series (env : Env) (dirPath : String) (idx : SeriesPaths)
    (hidx : seriesIndex env dirPath = .ok idx) :
    pathUnderOneSeries idx ∧
    (∀ m, manifestIndex env dirPath = .ok m → ∀ k, pathsOf m k = []) := by
  refine ⟨?_, ?_⟩
  · intro p k1 k2 h1 h2
    have hw := (walkAll_of_seriesIndex env dirPath idx hidx).2
    rw [pathsOf_walkAll env _ [] idx hw, pathsOf_nil, List.nil_append, mem_walkedPaths] at h1 h2
    obtain ⟨e1, _, _, hk1, hp1⟩ := h1
    obtain ⟨e2, _, _, hk2, hp2⟩ := h2
    rw [← hk1, ← hk2, hp1, hp2]
  · intro m hm k
    rcases manifestIndex_ok env dirPath with h | h
    · rw [h, Outcome.ok.injEq] at hm
      rw [← hm]
      rfl
    · rw [h] at hm
      cases hm

theorem path_under_one_series_witness :
    seriesIndex sampleEnv "/data" = .ok sampleIndex ∧ pathUnderOneSeries sampleIndex :=
  ⟨by decide, (path_under_one_series sampleEnv "/data" sampleIndex (by decide)).1⟩

/-! ## A manifest without image records -/

theorem walkAll_withoutManifest (env : Env) (dirPath : String) (es : List WalkEntry)
    (m : SeriesPaths) :
    walkAll (withoutManifest env dirPath) m es = walkAll env m es := by
  induction es generalizing m with
  | nil => rfl
  | cons e rest ih =>
    have hstep : walkFn (withoutManifest env dirPath) m e = walkFn env m e := rfl
    rw [walkAll, walkAll, hstep]
    cases walkFn env m e with
    | none => rfl
    | some m' => exact ih m'

theorem manifestIndex_withoutManifest (env : Env) (dirPath : String) :
    manifestIndex (withoutManifest env dirPath) dirPath = .ok [] := by
  simp [manifestIndex, withoutManifest]

theorem walkedPaths_filter (env : Env) (es : List WalkEntry) (dp k : String) :
    walkedPaths env (es.filter (fun e => e.path != dp)) k =
      (walkedPaths env es k).filter (fun p => p != dp) := by
  unfold walkedPaths
  rw [List.filter_map, List.filter_filter, List.filter_filter]
  congr 1
  apply List.filter_congr
  intro x _
  simp [Bool.and_comm]

/-- C8, as stated, fails: the DICOMDIR of the sample directory parses and holds
no image record, and the mapping built lists the DICOMDIR file itself, which
the mapping of the same directory without the DICOMDIR does not. -/
theorem manifest_file_is_listed :
    manifestWithoutImages sampleEnv "/data" = true ∧
    seriesIndex sampleEnv "/data" = .ok
      [("data", ["/data/DICOMDIR"]), ("SE1", ["/data/SE1/IM1.DCM", "/data/SE1/IM2.dcm"]),
       ("SE2", ["/data/SE2/BAD.ima"]), ("SE3", ["/data/SE3/A.dicom", "/data/SE3/B"])] ∧
    seriesIndex (withoutManifest sampleEnv "/data") "/data" = .ok
      [("SE1", ["/data/SE1/IM1.DCM", "/data/SE1/IM2.dcm"]),
       ("SE2", ["/data/SE2/BAD.ima"]), ("SE3", ["/data/SE3/A.dicom", "/data/SE3/B"])] ∧
    seriesIndex sampleEnv "/data" ≠ seriesIndex (withoutManifest sampleEnv "/data") "/data" := by
  decide

/-- C8, amended: when the DICOMDIR parses and holds no image record, every
mapping that `loadDICOMSeries` builds is the result of the directory traversal;
it is the mapping of the same directory without the DICOMDIR file except for
the path of the DICOMDIR file itself, which the traversal may list. -/
theorem empty_manifest_falls_back (env : Env) (dirPath : String) (idx : SeriesPaths)
    (_ : manifestWithoutImages env dirPath = true)
    (hidx : seriesIndex env dirPath = .ok idx) :
    manifestIndex env dirPath = .ok [] ∧
    traversalIndex env dirPath = .ok idx ∧
    ∃ idx', seriesIndex (withoutManifest env dirPath) dirPath = .ok idx' ∧
      ∀ k, pathsOf idx' k =
        (pathsOf idx k).filter (fun p => p != env.join [dirPath, "DICOMDIR"]) := by
  obtain ⟨hm, hw⟩ := walkAll_of_seriesIndex env dirPath idx hidx
  have ht : traversalIndex env dirPath = .ok idx := by simp [traversalIndex, hw]
  refine ⟨hm, ht, ?_⟩
  have hok := walkAll_no_err env _ [] idx hw
  obtain ⟨idx', hidx'⟩ := walkAll_of_no_err env
    ((env.walk dirPath).filter (fun e => e.path != env.join [dirPath, "DICOMDIR"])) []
    (fun e he => hok e (List.mem_of_mem_filter he))
  have hs' : seriesIndex (withoutManifest env dirPath) dirPath = .ok idx' := by
    rw [seriesIndex_eq, manifestIndex_withoutManifest]
    simp only [traversalIndex]
    rw [walkAll_withoutManifest]
    have hwalk : (withoutManifest env dirPath).walk dirPath =
        (env.walk dirPath).filter (fun e => e.path != env.join [dirPath, "DICOMDIR"]) := rfl
    rw [hwalk, hidx']
  refine ⟨idx', hs', ?_⟩
  intro k
  rw [pathsOf_walkAll env _ [] idx' hidx', pathsOf_walkAll env _ [] idx hw,
    pathsOf_nil, List.nil_append, List.nil_append, walkedPaths_filter]

theorem empty_manifest_falls_back_witness :
    manifestWithoutImages sampleEnv "/data" = true ∧
    seriesIndex sampleEnv "/data" = .ok sampleIndex ∧
    traversalIndex sampleEnv "/data" = .ok sampleIndex :=
  ⟨by decide, by decide,
    (empty_manifest_falls_back sampleEnv "/data" sampleIndex (by decide) (by decide)).2.1⟩

/-! ## Metadata rendering: properties -/

theorem splitLines_line (l rest : List Char) (h : '\n' ∉ l) :
    splitLines (l ++ '\n' :: rest) = l :: splitLines rest := by
  induction l with
  | nil => simp [splitLines]
  | cons c t ih =>
    have hc : c ≠ '\n' := fun e => h (by simp [e])
    have ht : '\n' ∉ t := fun e => h (List.mem_cons_of_mem c e)
    simp [splitLines, hc, ih ht]

theorem splitLines_last (l : List Char) (h : '\n' ∉ l) (hne : l ≠ []) :
    splitLines l = [l] := by
  induction l with
  | nil => exact absurd rfl hne
  | cons c t ih =>
    have hc : c ≠ '\n' := fun e => h (by simp [e])
    have ht : '\n' ∉ t := fun e => h (List.mem_cons_of_mem c e)
    cases t with
    | nil => simp [splitLines, hc]
    | cons d u =>
      have e : splitLines (c :: d :: u) =
          (match splitLines (d :: u) with
            | [] => [[c]]
            | l :: ls => (c :: l) :: ls) := by
        simp [splitLines, hc]
      rw [e, ih ht (by simp)]

theorem getMetadataFromMap_toList (m : MetaMap) :
    (getMetadataFromMap m).toList =
      "--- DICOM Metadata ---".toList ++ '\n' ::
        (termLine "Patient Name: " (mapGet m "PatientName") ++
        (termLine "Study Date: " (mapGet m "StudyDate") ++
        (termLine "Modality: " (mapGet m "Modality") ++
        (termLine "Image Dimensions: " (mapGet m "Dimensions") ++
        (termLine "Orientation: " (mapGet m "Orientation") ++
        openLine "Series Description: " (mapGet m "SeriesDescription")))))) := by
  unfold getMetadataFromMap
  generalize mapGet m "PatientName" = o1
  generalize mapGet m "StudyDate" = o2
  generalize mapGet m "Modality" = o3
  generalize mapGet m "Dimensions" = o4
  generalize mapGet m "Orientation" = o5
  generalize mapGet m "SeriesDescription" = o6
  cases o1 <;> cases o2 <;> cases o3 <;> cases o4 <;> cases o5 <;> cases o6 <;>
    simp [termLine, openLine, String.toList]

theorem splitLines_termLine (label : String) (o : Option String) (rest : List Char)
    (hl : '\n' ∉ label.toList) (ho : ∀ v, o = some v → '\n' ∉ v.toList) :
    splitLines (termLine label o ++ rest) = optLine label o ++ splitLines rest := by
  cases o with
  | none => simp [termLine, optLine]
  | some v =>
    have hv : '\n' ∉ (label ++ v).toList := by
      simp only [String.toList, String.data_append, List.mem_append, not_or]
      exact ⟨hl, ho v rfl⟩
    simp only [termLine, optLine, List.append_assoc, List.singleton_append]
    exact splitLines_line _ rest hv

theorem splitLines_openLine (label : String) (o : Option String)
    (hl : '\n' ∉ label.toList) (hne : label.toList ≠ [])
    (ho : ∀ v, o = some v → '\n' ∉ v.toList) :
    splitLines (openLine label o) = optLine label o := by
  cases o with
  | none => simp [openLine, optLine, splitLines]
  | some v =>
    have hv : '\n' ∉ (label ++ v).toList := by
      simp only [String.toList, String.data_append, List.mem_append, not_or]
      exact ⟨hl, ho v rfl⟩
    have hn : (label ++ v).toList ≠ [] := by
      simp only [String.toList, String.data_append, ne_eq, List.append_eq_nil, not_and]
      intro h
      exact absurd h hne
    simp only [openLine, optLine]
    exact splitLines_last _ hv hn

theorem map_mk_optLine (label : String) (o : Option String) :
    (optLine label o).map String.mk = (o.map (fun v => label ++ v)).toList := by
  cases o <;> rfl

theorem mem_of_lookup (es : List (String × String)) (k v : String)
    (h : es.lookup k = some v) : ∃ k', (k', v) ∈ es := by
  induction es with
  | nil => simp at h
  | cons e rest ih =>
    obtain ⟨a, b⟩ := e
    rw [List.lookup_cons] at h
    cases hk : (k == a) with
    | true =>
      simp only [hk, Option.some.injEq] at h
      exact ⟨a, by simp [h]⟩
    | false =>
      simp only [hk] at h
      obtain ⟨k', hk'⟩ := ih h
      exact ⟨k', List.mem_cons_of_mem _ hk'⟩

theorem singleLineValues_get (m : MetaMap) (hs : singleLineValues m = true)
    (k v : String) (hv : mapGet m k = some v) : '\n' ∉ v.toList := by
  cases m with
  | none => simp [mapGet] at hv
  | some es =>
    obtain ⟨k', hk'⟩ := mem_of_lookup es k v hv
    simp only [singleLineValues, List.all_eq_true] at hs
    simpa using hs (k', v) hk'

theorem textLines_getMetadataFromMap (m : MetaMap) (hs : singleLineValues m = true) :
    textLines (getMetadataFromMap m) = "--- DICOM Metadata ---" :: fieldLines m := by
  have h := singleLineValues_get m hs
  unfold textLines
  rw [getMetadataFromMap_toList, splitLines_line _ _ (by decide),
    splitLines_termLine _ _ _ (by decide) (h "PatientName"),
    splitLines_termLine _ _ _ (by decide) (h "StudyDate"),
    splitLines_termLine _ _ _ (by decide) (h "Modality"),
    splitLines_termLine _ _ _ (by decide) (h "Dimensions"),
    splitLines_termLine _ _ _ (by decide) (h "Orientation"),
    splitLines_openLine _ _ (by decide) (by decide) (h "SeriesDescription")]
  simp only [List.map_cons, List.map_append, map_mk_optLine, fieldLines, vocabulary,
    List.filterMap_cons, List.filterMap_nil]
  generalize mapGet m "PatientName" = o1
  generalize mapGet m "StudyDate" = o2
  generalize mapGet m "Modality" = o3
  generalize mapGet m "Dimensions" = o4
  generalize mapGet m "Orientation" = o5
  generalize mapGet m "SeriesDescription" = o6
  cases o1 <;> cases o2 <;> cases o3 <;> cases o4 <;> cases o5 <;> cases o6 <;> rfl

theorem getMetadataFromMap_congr (m m' : MetaMap) (h : ∀ k, mapGet m' k = mapGet m k) :
    getMetadataFromMap m' = getMetadataFromMap m := by
  simp only [getMetadataFromMap, h]

theorem fieldLines_congr (m m' : MetaMap) (h : ∀ k, mapGet m' k = mapGet m k) :
    fieldLines m' = fieldLines m := by
  simp only [fieldLines, h]

/-- C9 fails on the code: a map without SeriesDescription, such as the
metadata of every series of the sample directory, is rendered with a line feed
after its last present field, so the returned string ends with a line
terminator. -/
theorem rendering_ends_with_line_feed :
    getMetadataFromMap (some [("Modality", "CT"), ("Orientation", "Unknown")]) =
      "--- DICOM Metadata ---\nModality: CT\nOrientation: Unknown\n" ∧
    (getMetadataFromMap (some [("Modality", "CT"), ("Orientation", "Unknown")])).toList.getLast? =
      some '\n' ∧
    loadDICOMSeries sampleEnv "/data" = .ok sampleSeries ∧
    ∀ s ∈ sampleSeries, (getMetadataFromMap s.metadata).toList.getLast? = some '\n' := by
  decide

/-- C10, as stated, fails: the map of Modality "CT" and Dimensions "512 x 512"
is rendered as three lines, the first of which is the header and not the
Modality line; and a value that holds a line feed is spread over two lines. -/
theorem rendering_starts_with_header :
    textLines (getMetadataFromMap (some [("Modality", "CT"), ("Dimensions", "512 x 512")])) =
      ["--- DICOM Metadata ---", "Modality: CT", "Image Dimensions: 512 x 512"] ∧
    fieldLines (some [("Modality", "CT"), ("Dimensions", "512 x 512")]) =
      ["Modality: CT", "Image Dimensions: 512 x 512"] ∧
    textLines (getMetadataFromMap (some [("Modality", "CT"), ("Dimensions", "512 x 512")])) ≠
      fieldLines (some [("Modality", "CT"), ("Dimensions", "512 x 512")]) ∧
    textLines (getMetadataFromMap (some [("Modality", "C\nT")])) =
      ["--- DICOM Metadata ---", "Modality: C", "T"] := by
  decide

/-- C10, amended: for every metadata map whose values hold no line feed, the
lines of the rendering are the header line followed by exactly one line per
vocabulary field present in the map, label then value, in the fixed order;
the rendering depends only on what the map binds, not on the order of
insertion; a map of exactly Modality "CT" and Dimensions "512 x 512" is
rendered as the header and two lines, the Modality line first. -/
theorem rendering_lines (m : MetaMap) (hs : singleLineValues m = true) :
    textLines (getMetadataFromMap m) = "--- DICOM Metadata ---" :: fieldLines m ∧
    (∀ m' : MetaMap, (∀ k, mapGet m' k = mapGet m k) →
      getMetadataFromMap m' = getMetadataFromMap m) ∧
    ((∀ k, mapGet m k = mapGet (some [("Modality", "CT"), ("Dimensions", "512 x 512")]) k) →
      textLines (getMetadataFromMap m) =
        ["--- DICOM Metadata ---", "Modality: CT", "Image Dimensions: 512 x 512"]) := by
  refine ⟨textLines_getMetadataFromMap m hs, fun m' h => getMetadataFromMap_congr m m' h, ?_⟩
  intro h
  rw [getMetadataFromMap_congr _ m h]
  decide

theorem rendering_lines_witness :
    singleLineValues (some [("Dimensions", "512 x 512"), ("Modality", "CT")]) = true ∧
    textLines (getMetadataFromMap (some [("Dimensions", "512 x 512"), ("Modality", "CT")])) =
      ["--- DICOM Metadata ---", "Modality: CT", "Image Dimensions: 512 x 512"] :=
  ⟨by decide,
    (rendering_lines (some [("Dimensions", "512 x 512"), ("Modality", "CT")])
      (by decide)).2.2 (by
        intro k
        simp only [mapGet, List.lookup]
        cases h1 : (k == "Modality") <;> cases h2 : (k == "Dimensions") <;>
          first
          | rfl
          | (rw [beq_iff_eq] at h1 h2
             exact absurd (h1.symm.trans h2) (by decide)))⟩

end DicomViewer
